import Mathlib

/-!
Verification of the Chrome SNSS session-file parser
(`internal/database/session_chrome.go`) of the web-recap repository.

The Go source is shallowly embedded: byte streams are `List Nat` (each
element a byte value `< 256` for genuine inputs), Go `uint32`/`uint64`
arithmetic is `Nat` with explicit `% 2^32` where Go wrapping matters, Go
strings are raw byte sequences (`GoStr`), and a Go runtime panic (negative
`make` length, slice bound out of range) is modelled by `Option`/a
distinguished `panicked` outcome.  Fields, command cases and control flow
follow the source function by function.
-/

deriving instance DecidableEq for Except

namespace SNSS

/-- A Go string: a raw byte sequence (Go strings are byte strings). -/
abbrev GoStr := List Nat

/-- Error conditions of Go's `io.ReadFull`: `eof` when no byte at all was
available (`io.EOF`), `unexpectedEOF` when only part of the requested bytes
were (`io.ErrUnexpectedEOF`). -/
inductive ReadErr where
  | eof
  | unexpectedEOF
deriving DecidableEq, Repr

/-- `io.ReadFull r buf` over a byte cursor: reading `n` bytes either
consumes exactly `n` and succeeds, or drains the stream and fails —
`eof` if nothing was available and `n > 0`, `unexpectedEOF` on a
partial read. `n = 0` always succeeds. -/
def readFull (n : Nat) (s : List Nat) : Except ReadErr (List Nat) × List Nat :=
  if n ≤ s.length then (Except.ok (s.take n), s.drop n)
  else if s.length = 0 then (Except.error ReadErr.eof, [])
  else (Except.error ReadErr.unexpectedEOF, [])

/-- `readUint8` of the source: one byte. -/
def readUint8 (s : List Nat) : Except ReadErr Nat × List Nat :=
  match readFull 1 s with
  | (Except.ok b, rest) => (Except.ok (b.headD 0), rest)
  | (Except.error e, rest) => (Except.error e, rest)

/-- `readUint16` of the source: two bytes, little endian,
`uint16(b[0]) | uint16(b[1])<<8`. -/
def readUint16 (s : List Nat) : Except ReadErr Nat × List Nat :=
  match readFull 2 s with
  | (Except.ok b, rest) => (Except.ok (b.headD 0 ||| (b.getD 1 0) <<< 8), rest)
  | (Except.error e, rest) => (Except.error e, rest)

/-- `readUint32` of the source: four bytes, little endian. -/
def readUint32 (s : List Nat) : Except ReadErr Nat × List Nat :=
  match readFull 4 s with
  | (Except.ok b, rest) =>
      (Except.ok ((b.getD 3 0) <<< 24 ||| (b.getD 2 0) <<< 16 |||
                  (b.getD 1 0) <<< 8 ||| b.headD 0), rest)
  | (Except.error e, rest) => (Except.error e, rest)

/-- `readUint64` of the source: eight bytes, little endian. -/
def readUint64 (s : List Nat) : Except ReadErr Nat × List Nat :=
  match readFull 8 s with
  | (Except.ok b, rest) =>
      (Except.ok ((b.getD 7 0) <<< 56 ||| (b.getD 6 0) <<< 48 |||
                  (b.getD 5 0) <<< 40 ||| (b.getD 4 0) <<< 32 |||
                  (b.getD 3 0) <<< 24 ||| (b.getD 2 0) <<< 16 |||
                  (b.getD 1 0) <<< 8 ||| b.headD 0), rest)
  | (Except.error e, rest) => (Except.error e, rest)

/-- Decode of Go `utf16.Decode`: UTF-16 code units to runes, combining a
high surrogate followed by a low surrogate, and replacing every other
surrogate by U+FFFD. -/
def utf16Decode : List Nat → List Nat
  | [] => []
  | [u] => if u < 0xD800 || 0xE000 ≤ u then [u] else [0xFFFD]
  | u :: v :: rest =>
      if u < 0xD800 || 0xE000 ≤ u then u :: utf16Decode (v :: rest)
      else if u < 0xDC00 && (0xDC00 ≤ v && v < 0xE000) then
        (0x10000 + (u - 0xD800) * 0x400 + (v - 0xDC00)) :: utf16Decode rest
      else 0xFFFD :: utf16Decode (v :: rest)

/-- UTF-8 encoding of one rune (always a valid scalar value here, since
`utf16Decode` replaces surrogates). -/
def utf8EncodeChar (c : Nat) : List Nat :=
  if c < 0x80 then [c]
  else if c < 0x800 then [0xC0 + c / 0x40, 0x80 + c % 0x40]
  else if c < 0x10000 then
    [0xE0 + c / 0x1000, 0x80 + (c / 0x40) % 0x40, 0x80 + c % 0x40]
  else
    [0xF0 + c / 0x40000, 0x80 + (c / 0x1000) % 0x40,
     0x80 + (c / 0x40) % 0x40, 0x80 + c % 0x40]

/-- Go `string(utf16.Decode(units))` as a byte string. -/
def goStr16 (units : List Nat) : GoStr :=
  (utf16Decode units).flatMap utf8EncodeChar

/-- The code-unit extraction loop of `readString16`:
`uint16(b[i+1])<<8 | uint16(b[i])` over consecutive byte pairs. -/
def toUnits : List Nat → List Nat
  | b0 :: b1 :: rest => (b1 <<< 8 ||| b0) :: toUnits rest
  | _ => []

/-- `readString` of the source.  A 4-byte length `sz`, then the payload
padded to a multiple of 4 (`rsz` computed in Go `uint32` arithmetic, hence
the `% 2^32`), returning the first `sz` bytes.  `none` models the Go panic
of `b[:sz]` when the wrapped padded length is smaller than `sz`. -/
def readString (s : List Nat) : Option (Except ReadErr GoStr × List Nat) :=
  match readUint32 s with
  | (Except.error e, rest) => some (Except.error e, rest)
  | (Except.ok sz, rest) =>
      let rsz := if sz % 4 ≠ 0 then (sz + (4 - sz % 4)) % 2 ^ 32 else sz
      match readFull rsz rest with
      | (Except.error e, rest') => some (Except.error e, rest')
      | (Except.ok b, rest') =>
          if rsz < sz then none else some (Except.ok (b.take sz), rest')

/-- `readString16` of the source.  A 4-byte character count `sz`; the byte
count `sz * 2` and its padding are computed in Go `uint32` arithmetic and
can wrap.  `none` models the Go panic of the decode loop indexing past the
buffer when the padded length wrapped below the loop bound. -/
def readString16 (s : List Nat) : Option (Except ReadErr GoStr × List Nat) :=
  match readUint32 s with
  | (Except.error e, rest) => some (Except.error e, rest)
  | (Except.ok sz, rest) =>
      let w := sz * 2 % 2 ^ 32
      let rsz := if w % 4 ≠ 0 then (w + (4 - w % 4)) % 2 ^ 32 else w
      match readFull rsz rest with
      | (Except.error e, rest') => some (Except.error e, rest')
      | (Except.ok b, rest') =>
          if rsz < w then none
          else some (Except.ok (goStr16 (toUnits (b.take w))), rest')

/-! ## Session state store (`SessionParser` and `processCommand`) -/

/-- SNSS command types of the source. -/
def kCommandSetTabWindow : Nat := 0
def kCommandSetTabIndexInWindow : Nat := 2
def kCommandUpdateTabNavigation : Nat := 6
def kCommandSetSelectedNavigationIndex : Nat := 7
def kCommandSetSelectedTabInIndex : Nat := 8
def kCommandTabClosed : Nat := 16
def kCommandWindowClosed : Nat := 17
def kCommandSetActiveWindow : Nat := 20
def kCommandSetTabGroup : Nat := 25
def kCommandSetTabGroupMetadata2 : Nat := 27

/-- `tabGroup` of the source. -/
structure tabGroup where
  high : Nat
  low : Nat
  name : GoStr
deriving DecidableEq, Repr

/-- `historyItem` of the source. -/
structure historyItem where
  idx : Nat
  url : GoStr
  title : GoStr
deriving DecidableEq, Repr

/-- `sessionTab` of the source.  The Go field `group *tabGroup` is a
pointer into the group map; it is modelled by the group's map key, looked
up at assembly time so that later metadata writes stay visible. -/
structure sessionTab where
  id : Nat
  history : List historyItem
  idx : Nat
  win : Nat
  deleted : Bool
  currentHistoryIdx : Nat
  group : Option GoStr
deriving DecidableEq, Repr

/-- `sessionWindow` of the source.  `tabs` is only populated by
`buildTabEntries`. -/
structure sessionWindow where
  activeTabIdx : Nat
  id : Nat
  deleted : Bool
  tabs : List sessionTab
deriving DecidableEq, Repr

/-- `SessionParser` of the source.  The Go maps are modelled as
insertion-ordered association lists (lookup and in-place update are
deterministic; only *iteration order* in `buildTabEntries` is an
unspecified choice, passed there as an explicit parameter).
`activeWindow` is the id of the pointed-to window (the pointer always
aims at the map entry of that id). -/
structure SessionParser where
  tabs : List (Nat × sessionTab)
  windows : List (Nat × sessionWindow)
  groups : List (GoStr × tabGroup)
  activeWindow : Option Nat
deriving DecidableEq, Repr

/-- `newSessionParser()`. -/
def newSessionParser : SessionParser :=
  { tabs := [], windows := [], groups := [], activeWindow := none }

/-- Association-list lookup. -/
def alGet {κ α : Type} [DecidableEq κ] (k : κ) : List (κ × α) → Option α
  | [] => none
  | (k', v) :: rest => if k' = k then some v else alGet k rest

/-- Association-list get-or-create-then-mutate: the Go pattern
`p.getX(id).field = v` — the entry is updated in place if present,
appended (from the zero value) otherwise. -/
def alSet {κ α : Type} [DecidableEq κ] (k : κ) (f : α → α) (dflt : α) :
    List (κ × α) → List (κ × α)
  | [] => [(k, f dflt)]
  | (k', v) :: rest =>
      if k' = k then (k', f v) :: rest else (k', v) :: alSet k f dflt rest

/-- The zero `sessionTab` allocated by `getTab`: `&sessionTab{id: id}`. -/
def zeroTab (id : Nat) : sessionTab :=
  { id := id, history := [], idx := 0, win := 0, deleted := false,
    currentHistoryIdx := 0, group := none }

/-- The zero `sessionWindow` allocated by `getWindow`:
`&sessionWindow{id: id}`. -/
def zeroWindow (id : Nat) : sessionWindow :=
  { activeTabIdx := 0, id := id, deleted := false, tabs := [] }

/-- `getTab` followed by a mutation of the returned tab. -/
def updTab (p : SessionParser) (id : Nat) (f : sessionTab → sessionTab) :
    SessionParser :=
  { p with tabs := alSet id f (zeroTab id) p.tabs }

/-- `getWindow` followed by a mutation of the returned window. -/
def updWindow (p : SessionParser) (id : Nat) (f : sessionWindow → sessionWindow) :
    SessionParser :=
  { p with windows := alSet id f (zeroWindow id) p.windows }

/-- One lowercase hex digit, as its ASCII byte. -/
def hexDigit (n : Nat) : Nat := if n < 10 then 48 + n else 87 + n

/-- Digit accumulation for the hex rendering; the first argument is
fuel, structurally decreasing, always called with at least the digit
count (`n` itself suffices since `n / 16 < n` for positive `n`). -/
def hexBytesCore : Nat → Nat → List Nat
  | 0, _ => []
  | fuel + 1, n => if n = 0 then [] else hexBytesCore fuel (n / 16) ++ [hexDigit (n % 16)]

/-- Go `fmt.Sprintf("%x", n)`: minimal lowercase hex, `"0"` for zero. -/
def hexBytes (n : Nat) : GoStr := if n = 0 then [48] else hexBytesCore n n

/-- The group-map key of `getGroup`: `fmt.Sprintf("%x%x", high, low)`. -/
def grpKey (high low : Nat) : GoStr := hexBytes high ++ hexBytes low

/-- `getGroup` followed by a mutation of the returned group; `getGroup`
allocates `&tabGroup{high, low, ""}` on a missing key. -/
def updGroup (p : SessionParser) (high low : Nat) (f : tabGroup → tabGroup) :
    SessionParser :=
  { p with groups :=
      alSet (grpKey high low) f { high := high, low := low, name := [] } p.groups }

/-- Value of a fallible integer read at a call site that discards the
error (`v, _ := readUintN(data)`): the read value, or 0 on failure. -/
def valD (r : Except ReadErr Nat) : Nat := r.toOption.getD 0

/-- Value of a fallible string read at a call site that discards the
error: the read string, or `""` on failure. -/
def valS (r : Except ReadErr GoStr) : GoStr := r.toOption.getD []

/-- The history-update loop of the `UpdateTabNavigation` case: find the
first item with the given index and overwrite its url/title, or report
that none exists. -/
def setFirstMatch (histIdx : Nat) (url title : GoStr) :
    List historyItem → Option (List historyItem)
  | [] => none
  | h :: hs =>
      if h.idx = histIdx then some ({ h with url := url, title := title } :: hs)
      else (setFirstMatch histIdx url title hs).map (h :: ·)

/-- The full `UpdateTabNavigation` history effect: overwrite the first
matching item, or append `&historyItem{idx, url, title}`. -/
def upsertHist (hist : List historyItem) (histIdx : Nat) (url title : GoStr) :
    List historyItem :=
  match setFirstMatch histIdx url title hist with
  | some hist' => hist'
  | none => hist ++ [{ idx := histIdx, url := url, title := title }]

/-- `processCommand` of the source.  Field reads thread the payload
cursor; read errors are discarded exactly as in the source (`v, _ :=`),
leaving the zero value.  `none` models a Go panic escaping from
`readString`/`readString16` (there is no error return in the source). -/
def processCommand (p : SessionParser) (typ : Nat) (data : List Nat) :
    Option SessionParser :=
  if typ = kCommandUpdateTabNavigation then
    let (_, d1) := readUint32 data
    let (r2, d2) := readUint32 d1
    let (r3, d3) := readUint32 d2
    match readString d3 with
    | none => none
    | some (r4, d4) =>
        match readString16 d4 with
        | none => none
        | some (r5, _) =>
            some (updTab p (valD r2) fun t =>
              { t with history := upsertHist t.history (valD r3) (valS r4) (valS r5) })
  else if typ = kCommandSetSelectedTabInIndex then
    let (r1, d1) := readUint32 data
    let (r2, _) := readUint32 d1
    some (updWindow p (valD r1) fun w => { w with activeTabIdx := valD r2 })
  else if typ = kCommandSetTabGroupMetadata2 then
    let (_, d1) := readUint32 data
    let (r2, d2) := readUint64 d1
    let (r3, d3) := readUint64 d2
    match readString16 d3 with
    | none => none
    | some (r4, _) =>
        some (updGroup p (valD r2) (valD r3) fun g => { g with name := valS r4 })
  else if typ = kCommandSetTabGroup then
    let (r1, d1) := readUint32 data
    let (_, d2) := readUint32 d1
    let (r3, d3) := readUint64 d2
    let (r4, _) := readUint64 d3
    let p1 := updGroup p (valD r3) (valD r4) (fun g => g)
    some (updTab p1 (valD r1) fun t =>
      { t with group := some (grpKey (valD r3) (valD r4)) })
  else if typ = kCommandSetTabWindow then
    let (r1, d1) := readUint32 data
    let (r2, _) := readUint32 d1
    some (updTab p (valD r2) fun t => { t with win := valD r1 })
  else if typ = kCommandWindowClosed then
    let (r1, _) := readUint32 data
    some (updWindow p (valD r1) fun w => { w with deleted := true })
  else if typ = kCommandTabClosed then
    let (r1, _) := readUint32 data
    some (updTab p (valD r1) fun t => { t with deleted := true })
  else if typ = kCommandSetTabIndexInWindow then
    let (r1, d1) := readUint32 data
    let (r2, _) := readUint32 d1
    some (updTab p (valD r1) fun t => { t with idx := valD r2 })
  else if typ = kCommandSetActiveWindow then
    let (r1, _) := readUint32 data
    let p1 := updWindow p (valD r1) (fun w => w)
    some { p1 with activeWindow := some (valD r1) }
  else if typ = kCommandSetSelectedNavigationIndex then
    let (r1, d1) := readUint32 data
    let (r2, _) := readUint32 d1
    some (updTab p (valD r1) fun t => { t with currentHistoryIdx := valD r2 })
  else
    some p

/-! ## Entry assembler (`buildTabEntries`) -/

/-- `models.TabEntry` of the repository (`internal/models`); `pinned` is
never set by the session parser. -/
structure TabEntry where
  url : GoStr
  title : GoStr
  domain : GoStr
  active : Bool
  pinned : Bool
  group : GoStr
  windowID : Nat
  browser : GoStr
deriving DecidableEq, Repr

/-- Sorted insertion by a `Nat` measure; models the ascending
`sort.Slice` calls of `buildTabEntries`. -/
def insertByKey {α : Type} (key : α → Nat) (a : α) : List α → List α
  | [] => [a]
  | b :: bs => if key a ≤ key b then a :: b :: bs else b :: insertByKey key a bs

/-- Insertion sort by a `Nat` measure (ascending). -/
def sortByKey {α : Type} (key : α → Nat) : List α → List α
  | [] => []
  | a :: as => insertByKey key a (sortByKey key as)

/-- The first loop of `buildTabEntries`: for each tab (in the map
iteration order `tabOrder`), sort its history ascending by index and
append the tab to its window's `tabs` (creating the window lazily). -/
def phase1 (p : SessionParser) (tabOrder : List Nat) : SessionParser :=
  tabOrder.foldl
    (fun q tid =>
      match alGet tid q.tabs with
      | none => q
      | some t =>
          let t' := { t with history := sortByKey historyItem.idx t.history }
          let q' := { q with tabs := alSet tid (fun _ => t') (zeroTab tid) q.tabs }
          updWindow q' t.win (fun w => { w with tabs := w.tabs ++ [t'] }))
    p

/-- The second loop of `buildTabEntries`: sort every window's tabs
ascending by `idx` (order of this loop over the window map is
immaterial). -/
def phase2 (p : SessionParser) : SessionParser :=
  { p with windows := (p.windows.map
      (fun kw => (kw.1, { kw.2 with tabs := sortByKey sessionTab.idx kw.2.tabs }))) }

/-- The current-URL/title resolution of the third loop: first history
item whose index equals `currentHistoryIdx`; if the URL resolved so far
is empty and history is non-empty, fall back to the last history item
(both url and title). -/
def resolveURLTitle (hist : List historyItem) (cur : Nat) : GoStr × GoStr :=
  let p0 := match hist.find? (fun h => h.idx == cur) with
    | some h => (h.url, h.title)
    | none => (([] : GoStr), ([] : GoStr))
  if p0.1 = [] then
    match hist.getLast? with
    | some lastI => (lastI.url, lastI.title)
    | none => p0
  else p0

/-- The group-name resolution of the third loop:
`t.group != nil && t.group.name != ""`; the tab's group pointer is a key
into the group map. -/
def groupName (p : SessionParser) (t : sessionTab) : GoStr :=
  match t.group with
  | none => []
  | some k =>
      match alGet k p.groups with
      | none => []
      | some g => if g.name = [] then [] else g.name

/-- The per-window tab loop of `buildTabEntries`: `c` is the running
position counter (`idx` in the source), incremented only when an entry is
emitted. -/
def emitTabs (p : SessionParser) (extractDomain : GoStr → GoStr)
    (browserName : GoStr) (isActiveWindow : Bool) (activeTabIdx : Nat)
    (windowID : Nat) : Nat → List sessionTab → List TabEntry
  | _, [] => []
  | c, t :: ts =>
      if t.deleted then
        emitTabs p extractDomain browserName isActiveWindow activeTabIdx windowID c ts
      else
        let r := resolveURLTitle t.history t.currentHistoryIdx
        if r.1 = [] then
          emitTabs p extractDomain browserName isActiveWindow activeTabIdx windowID c ts
        else
          { url := r.1, title := r.2, domain := extractDomain r.1,
            active := isActiveWindow && (c == activeTabIdx), pinned := false,
            group := groupName p t, windowID := windowID,
            browser := browserName } ::
            emitTabs p extractDomain browserName isActiveWindow activeTabIdx windowID (c + 1) ts

/-- The window loop of `buildTabEntries`: iterate the window map in the
order `winOrder`, skip deleted windows, give every other window the next
sequential id (`windowID` counter), and emit its tabs.  A window is the
active window iff the store's active-window pointer aims at its map
entry. -/
def phase3 (p : SessionParser) (extractDomain : GoStr → GoStr)
    (browserName : GoStr) : Nat → List Nat → List TabEntry
  | _, [] => []
  | windowID, k :: ks =>
      match alGet k p.windows with
      | none => phase3 p extractDomain browserName windowID ks
      | some w =>
          if w.deleted then phase3 p extractDomain browserName windowID ks
          else
            emitTabs p extractDomain browserName (p.activeWindow == some k)
                w.activeTabIdx (windowID + 1) 0 w.tabs ++
              phase3 p extractDomain browserName (windowID + 1) ks

/-- `buildTabEntries` of the source.  The two Go map iterations have
unspecified order; they are passed explicitly: `tabOrder` enumerates the
tab-map keys for the grouping loop, `winOrder` the window-map keys (after
grouping) for the output loop. -/
def buildTabEntries (p : SessionParser) (browserName : GoStr)
    (extractDomain : GoStr → GoStr) (tabOrder winOrder : List Nat) :
    List TabEntry :=
  phase3 (phase2 (phase1 p tabOrder)) extractDomain browserName 0 winOrder

/-! ## Record stream reader (`parseSessionFile`) -/

/-- The fatal error kinds of `parseSessionFile` (each corresponds to one
`fmt.Errorf` return of the source). -/
inductive ParseErr where
  | magicRead
  | badMagic
  | versionRead
  | badVersion
  | cmdSize
  | cmdType
  | cmdPayload
deriving DecidableEq, Repr

/-- Result of a whole parse: entries, a fatal error, or a Go runtime
panic (negative `make` length or slice bound out of range). -/
inductive POutcome where
  | ok (entries : List TabEntry)
  | err (e : ParseErr)
  | panicked
deriving DecidableEq, Repr

theorem readFull_ok_eq {n : Nat} {s b r : List Nat}
    (h : readFull n s = (Except.ok b, r)) :
    n ≤ s.length ∧ b = s.take n ∧ r = s.drop n := by
  unfold readFull at h
  split at h
  · obtain ⟨h1, h2⟩ := Prod.mk.injEq .. ▸ h
    exact ⟨‹_›, (Except.ok.inj h1).symm, h2.symm⟩
  · split at h <;> simp_all

theorem readUint16_ok {s r : List Nat} {v : Nat}
    (h : readUint16 s = (Except.ok v, r)) : 2 ≤ s.length ∧ r = s.drop 2 := by
  unfold readUint16 at h
  split at h
  case _ b rest heq =>
    obtain ⟨h1, _, h3⟩ := readFull_ok_eq heq
    cases h
    exact ⟨h1, h3⟩
  case _ => simp_all

theorem readUint8_ok {s r : List Nat} {v : Nat}
    (h : readUint8 s = (Except.ok v, r)) : 1 ≤ s.length ∧ r = s.drop 1 := by
  unfold readUint8 at h
  split at h
  case _ b rest heq =>
    obtain ⟨h1, _, h3⟩ := readFull_ok_eq heq
    cases h
    exact ⟨h1, h3⟩
  case _ => simp_all

/-- The record loop of `parseSessionFile`: read a 2-byte size (clean
`io.EOF` here ends the loop normally), a type byte, then `int(sz) - 1`
payload bytes.  `sz = 0` makes the source call `make([]byte, -1)`, a Go
panic, modelled as `none`; a panic escaping `processCommand` also
surfaces as `none`. -/
def runLoop (p : SessionParser) (s : List Nat) :
    Option (Except ParseErr SessionParser) :=
  match h1 : readUint16 s with
  | (Except.error ReadErr.eof, _) => some (Except.ok p)
  | (Except.error ReadErr.unexpectedEOF, _) => some (Except.error ParseErr.cmdSize)
  | (Except.ok sz, s1) =>
      match h2 : readUint8 s1 with
      | (Except.error _, _) => some (Except.error ParseErr.cmdType)
      | (Except.ok _typ, s2) =>
          if sz = 0 then none
          else
            match h3 : readFull (sz - 1) s2 with
            | (Except.error _, _) => some (Except.error ParseErr.cmdPayload)
            | (Except.ok buf, s3) =>
                match processCommand p _typ buf with
                | none => none
                | some p' => runLoop p' s3
termination_by s.length
decreasing_by
  obtain ⟨l1, e1⟩ := readUint16_ok h1
  obtain ⟨l2, e2⟩ := readUint8_ok h2
  obtain ⟨l3, _, e3⟩ := readFull_ok_eq h3
  subst e1 e2 e3
  simp only [List.length_drop]
  omega

/-- Fuel-indexed, structurally recursive companion of `runLoop` (the
loop body is identical); used only to evaluate the well-founded
definition inside kernel-checked computations.  Each loop iteration
consumes at least three bytes, so any fuel above the stream length is
enough, which `runLoop_eq_runLoopF` proves. -/
def runLoopF : Nat → SessionParser → List Nat → Option (Except ParseErr SessionParser)
  | 0, _, _ => none
  | fuel + 1, p, s =>
      match readUint16 s with
      | (Except.error ReadErr.eof, _) => some (Except.ok p)
      | (Except.error ReadErr.unexpectedEOF, _) => some (Except.error ParseErr.cmdSize)
      | (Except.ok sz, s1) =>
          match readUint8 s1 with
          | (Except.error _, _) => some (Except.error ParseErr.cmdType)
          | (Except.ok _typ, s2) =>
              if sz = 0 then none
              else
                match readFull (sz - 1) s2 with
                | (Except.error _, _) => some (Except.error ParseErr.cmdPayload)
                | (Except.ok buf, s3) =>
                    match processCommand p _typ buf with
                    | none => none
                    | some p' => runLoopF fuel p' s3

theorem runLoopF_correct :
    ∀ (fuel : Nat) (p : SessionParser) (s : List Nat), s.length < fuel →
      runLoopF fuel p s = runLoop p s := by
  intro fuel
  induction fuel with
  | zero => intro p s h; omega
  | succ n ih =>
      intro p s hs
      rw [runLoopF, runLoop.eq_def]
      cases h1 : readUint16 s with
      | mk r1 s1 =>
          cases r1 with
          | error e => cases e <;> rfl
          | ok sz =>
              dsimp only
              cases h2 : readUint8 s1 with
              | mk r2 s2 =>
                  cases r2 with
                  | error e => rfl
                  | ok typ =>
                      dsimp only
                      by_cases hsz : sz = 0
                      · simp [hsz]
                      · simp only [if_neg hsz]
                        cases h3 : readFull (sz - 1) s2 with
                        | mk r3 s3 =>
                            cases r3 with
                            | error e => rfl
                            | ok buf =>
                                dsimp only
                                cases hp : processCommand p typ buf with
                                | none => rfl
                                | some p' =>
                                    dsimp only
                                    obtain ⟨l1, e1⟩ := readUint16_ok h1
                                    obtain ⟨l2, e2⟩ := readUint8_ok h2
                                    obtain ⟨l3, _, e3⟩ := readFull_ok_eq h3
                                    subst e1 e2 e3
                                    apply ih
                                    simp only [List.length_drop]
                                    omega

theorem runLoop_eq_runLoopF (p : SessionParser) (s : List Nat) :
    runLoop p s = runLoopF (s.length + 1) p s :=
  (runLoopF_correct (s.length + 1) p s (Nat.lt_succ_self _)).symm

/-- `parseSessionFile` of the source, over an in-memory byte sequence
(opening the file is the `SourceUnavailable` collaborator, outside this
core).  `ExtractDomain` lives in the bookmark-query code and is treated
as an external parameter, as are the two map iteration orders used by
`buildTabEntries`. -/
def parseSessionFile (input : List Nat) (browserName : GoStr)
    (extractDomain : GoStr → GoStr) (tabOrder winOrder : List Nat) : POutcome :=
  match readFull 4 input with
  | (Except.error _, _) => POutcome.err ParseErr.magicRead
  | (Except.ok magic, r1) =>
      if magic ≠ [83, 78, 83, 83] then POutcome.err ParseErr.badMagic
      else
        match readUint32 r1 with
        | (Except.error _, _) => POutcome.err ParseErr.versionRead
        | (Except.ok ver, r2) =>
            if ver ≠ 1 ∧ ver ≠ 3 then POutcome.err ParseErr.badVersion
            else
              match runLoop newSessionParser r2 with
              | none => POutcome.panicked
              | some (Except.error e) => POutcome.err e
              | some (Except.ok p) =>
                  POutcome.ok (buildTabEntries p browserName extractDomain tabOrder winOrder)

/-! ## Input encoders

Helpers to construct concrete SNSS byte streams for the theorems; they
mirror the wire format of spec §6 and are only used to build inputs. -/

/-- Little-endian 2-byte encoding. -/
def encU16 (n : Nat) : List Nat := [n % 256, n / 256 % 256]

/-- Little-endian 4-byte encoding. -/
def encU32 (n : Nat) : List Nat :=
  [n % 256, n / 256 % 256, n / 65536 % 256, n / 16777216 % 256]

/-- Little-endian 8-byte encoding. -/
def encU64 (n : Nat) : List Nat :=
  encU32 (n % 2 ^ 32) ++ encU32 (n / 2 ^ 32)

/-- Rounding up to the next multiple of 4 (the pickle alignment). -/
def pad4 (n : Nat) : Nat := if n % 4 = 0 then n else n + (4 - n % 4)

/-- Wire form of a length-prefixed byte string (zero-padded to 4). -/
def encStr (s : GoStr) : List Nat :=
  encU32 s.length ++ s ++ List.replicate (pad4 s.length - s.length) 0

/-- Wire form of a length-prefixed UTF-16 string from code units. -/
def encStr16 (units : List Nat) : List Nat :=
  encU32 units.length ++ units.flatMap (fun u => [u % 256, u / 256 % 256]) ++
    List.replicate (pad4 (2 * units.length) - 2 * units.length) 0

/-- Wire form of one record: 2-byte size (type byte + payload), type
byte, payload. -/
def encRecord (typ : Nat) (payload : List Nat) : List Nat :=
  encU16 (payload.length + 1) ++ [typ] ++ payload

/-- Wire form of the `UpdateTabNavigation` payload. -/
def encNavPayload (tid histIdx : Nat) (url : GoStr) (titleUnits : List Nat) :
    List Nat :=
  encU32 0 ++ encU32 tid ++ encU32 histIdx ++ encStr url ++ encStr16 titleUnits

/-- Wire form of a two-u32 payload (`SetTabWindow`, `SetTabIndexInWindow`,
`SetSelectedTabInIndex`, `SetSelectedNavigationIndex`). -/
def encPair (a b : Nat) : List Nat := encU32 a ++ encU32 b

/-- The valid file header: magic `"SNSS"` plus version. -/
def encHeader (ver : Nat) : List Nat := [83, 78, 83, 83] ++ encU32 ver

/-- Wire form of the `SetTabGroup` payload: tab id, 4 bytes of struct
padding, high half, low half. -/
def encTabGroupPayload (tid high low : Nat) : List Nat :=
  encU32 tid ++ encU32 0 ++ encU64 high ++ encU64 low

/-- Wire form of the `SetTabGroupMetadata2` payload: leading size word,
high half, low half, wide-string name. -/
def encMetaPayload (high low : Nat) (nameUnits : List Nat) : List Nat :=
  encU32 0 ++ encU64 high ++ encU64 low ++ encStr16 nameUnits

/-! ## Shared helpers for the theorems -/

/-- The session state after running the record loop on `s` (from a fresh
store), when the loop succeeds. -/
def afterLoop (s : List Nat) : SessionParser :=
  match runLoop newSessionParser s with
  | some (Except.ok p) => p
  | _ => newSessionParser

/-- Process a list of already-framed `(type, payload)` commands,
propagating a panic. -/
def applyCmds (p : SessionParser) : List (Nat × List Nat) → Option SessionParser
  | [] => some p
  | (t, d) :: rest =>
      match processCommand p t d with
      | none => none
      | some p' => applyCmds p' rest

/-- The state after a command list from a fresh store, when no panic
occurred. -/
def afterCmds (cmds : List (Nat × List Nat)) : SessionParser :=
  match applyCmds newSessionParser cmds with
  | some p => p
  | none => newSessionParser

/-- A concrete stand-in for the external `ExtractDomain` collaborator. -/
def sameDomain : GoStr → GoStr := fun s => s

/-- Stream with two windows, each holding one populated tab: window 1
gets tab 1 (url `"a"`), window 2 gets tab 2 (url `"b"`). -/
def twoWinTail : List Nat :=
  encRecord kCommandSetTabWindow (encPair 1 1) ++
  encRecord kCommandUpdateTabNavigation (encNavPayload 1 0 [97] []) ++
  encRecord kCommandSetTabWindow (encPair 2 2) ++
  encRecord kCommandUpdateTabNavigation (encNavPayload 2 0 [98] [])

/-- Stream whose window 1 is designated active with `activeTabIdx = 5`
but holds a single tab (so no emitted position ever equals 5). -/
def activeIdxOutOfRangeTail : List Nat :=
  encRecord kCommandSetTabWindow (encPair 1 1) ++
  encRecord kCommandUpdateTabNavigation (encNavPayload 1 0 [97] []) ++
  encRecord kCommandSetActiveWindow (encU32 1) ++
  encRecord kCommandSetSelectedTabInIndex (encPair 1 5)

/-- Stream opening with an `UpdateTabNavigation` record whose payload
stops after the history index (no url, no title), followed by two intact
records populating tab 5. -/
def shortNavTail : List Nat :=
  encRecord kCommandUpdateTabNavigation (encU32 0 ++ encU32 5 ++ encU32 2) ++
  encRecord kCommandSetTabWindow (encPair 1 5) ++
  encRecord kCommandUpdateTabNavigation (encNavPayload 5 0 [97] [65])

/-- Three commands naming the tab-group pairs `(0x1, 0x23)` and
`(0x12, 0x3)` — distinct pairs whose `%x%x` renderings are both
`"123"`. -/
def collidingGroupCmds : List (Nat × List Nat) :=
  [(kCommandSetTabGroup, encTabGroupPayload 1 1 35),
   (kCommandSetTabGroup, encTabGroupPayload 2 18 3),
   (kCommandSetTabGroupMetadata2, encMetaPayload 1 35 [71])]

/-! ## Decoding lemmas for encoded inputs -/

theorem lor_eq_add_of_dvd {x b k : Nat} (hx : 2 ^ k ∣ x) (hb : b < 2 ^ k) :
    x ||| b = x + b := by
  obtain ⟨a, rfl⟩ := hx
  rw [Nat.mul_comm, ← Nat.shiftLeft_eq]
  apply Nat.eq_of_testBit_eq
  intro i
  rw [Nat.testBit_or, Nat.testBit_shiftLeft, Nat.shiftLeft_eq, Nat.mul_comm,
    Nat.testBit_mul_pow_two_add a hb i]
  by_cases hik : i < k
  · simp [hik, Nat.not_le_of_lt hik]
  · have hbi : Nat.testBit b i = false :=
      Nat.testBit_lt_two_pow (Nat.lt_of_lt_of_le hb (Nat.pow_le_pow_right (by omega) (by omega)))
    simp [hik, Nat.le_of_not_lt, hbi, Nat.not_lt.mp hik]

theorem le32_eval (n : Nat) (h : n < 2 ^ 32) :
    (n / 16777216 % 256) <<< 24 ||| (n / 65536 % 256) <<< 16 |||
      (n / 256 % 256) <<< 8 ||| n % 256 = n := by
  simp only [Nat.shiftLeft_eq]
  have s1 : n / 16777216 % 256 * 2 ^ 24 ||| n / 65536 % 256 * 2 ^ 16 =
      n / 16777216 % 256 * 2 ^ 24 + n / 65536 % 256 * 2 ^ 16 :=
    lor_eq_add_of_dvd (k := 24) (by omega) (by omega)
  rw [s1]
  have s2 : n / 16777216 % 256 * 2 ^ 24 + n / 65536 % 256 * 2 ^ 16 |||
      n / 256 % 256 * 2 ^ 8 =
      n / 16777216 % 256 * 2 ^ 24 + n / 65536 % 256 * 2 ^ 16 + n / 256 % 256 * 2 ^ 8 :=
    lor_eq_add_of_dvd (k := 16) (by omega) (by omega)
  rw [s2]
  have s3 : n / 16777216 % 256 * 2 ^ 24 + n / 65536 % 256 * 2 ^ 16 +
      n / 256 % 256 * 2 ^ 8 ||| n % 256 =
      n / 16777216 % 256 * 2 ^ 24 + n / 65536 % 256 * 2 ^ 16 +
        n / 256 % 256 * 2 ^ 8 + n % 256 :=
    lor_eq_add_of_dvd (k := 8) (by omega) (by omega)
  rw [s3]
  omega

set_option maxHeartbeats 1000000 in
theorem le64_eval (n : Nat) (h : n < 2 ^ 64) :
    (n / 2 ^ 56 % 256) <<< 56 ||| (n / 2 ^ 48 % 256) <<< 48 |||
      (n / 2 ^ 40 % 256) <<< 40 ||| (n / 2 ^ 32 % 256) <<< 32 |||
      (n / 2 ^ 24 % 256) <<< 24 ||| (n / 2 ^ 16 % 256) <<< 16 |||
      (n / 2 ^ 8 % 256) <<< 8 ||| n % 256 = n := by
  simp only [Nat.shiftLeft_eq]
  have t1 : n / 2 ^ 56 % 256 * 2 ^ 56 ||| n / 2 ^ 48 % 256 * 2 ^ 48 = n / 2 ^ 56 % 256 * 2 ^ 56 + n / 2 ^ 48 % 256 * 2 ^ 48 :=
    lor_eq_add_of_dvd (k := 56) (by omega) (by omega)
  rw [t1]
  have t2 : n / 2 ^ 56 % 256 * 2 ^ 56 + n / 2 ^ 48 % 256 * 2 ^ 48 ||| n / 2 ^ 40 % 256 * 2 ^ 40 = n / 2 ^ 56 % 256 * 2 ^ 56 + n / 2 ^ 48 % 256 * 2 ^ 48 + n / 2 ^ 40 % 256 * 2 ^ 40 :=
    lor_eq_add_of_dvd (k := 48) (by omega) (by omega)
  rw [t2]
  have t3 : n / 2 ^ 56 % 256 * 2 ^ 56 + n / 2 ^ 48 % 256 * 2 ^ 48 + n / 2 ^ 40 % 256 * 2 ^ 40 ||| n / 2 ^ 32 % 256 * 2 ^ 32 = n / 2 ^ 56 % 256 * 2 ^ 56 + n / 2 ^ 48 % 256 * 2 ^ 48 + n / 2 ^ 40 % 256 * 2 ^ 40 + n / 2 ^ 32 % 256 * 2 ^ 32 :=
    lor_eq_add_of_dvd (k := 40) (by omega) (by omega)
  rw [t3]
  have t4 : n / 2 ^ 56 % 256 * 2 ^ 56 + n / 2 ^ 48 % 256 * 2 ^ 48 + n / 2 ^ 40 % 256 * 2 ^ 40 + n / 2 ^ 32 % 256 * 2 ^ 32 ||| n / 2 ^ 24 % 256 * 2 ^ 24 = n / 2 ^ 56 % 256 * 2 ^ 56 + n / 2 ^ 48 % 256 * 2 ^ 48 + n / 2 ^ 40 % 256 * 2 ^ 40 + n / 2 ^ 32 % 256 * 2 ^ 32 + n / 2 ^ 24 % 256 * 2 ^ 24 :=
    lor_eq_add_of_dvd (k := 32) (by omega) (by omega)
  rw [t4]
  have t5 : n / 2 ^ 56 % 256 * 2 ^ 56 + n / 2 ^ 48 % 256 * 2 ^ 48 + n / 2 ^ 40 % 256 * 2 ^ 40 + n / 2 ^ 32 % 256 * 2 ^ 32 + n / 2 ^ 24 % 256 * 2 ^ 24 ||| n / 2 ^ 16 % 256 * 2 ^ 16 = n / 2 ^ 56 % 256 * 2 ^ 56 + n / 2 ^ 48 % 256 * 2 ^ 48 + n / 2 ^ 40 % 256 * 2 ^ 40 + n / 2 ^ 32 % 256 * 2 ^ 32 + n / 2 ^ 24 % 256 * 2 ^ 24 + n / 2 ^ 16 % 256 * 2 ^ 16 :=
    lor_eq_add_of_dvd (k := 24) (by omega) (by omega)
  rw [t5]
  have t6 : n / 2 ^ 56 % 256 * 2 ^ 56 + n / 2 ^ 48 % 256 * 2 ^ 48 + n / 2 ^ 40 % 256 * 2 ^ 40 + n / 2 ^ 32 % 256 * 2 ^ 32 + n / 2 ^ 24 % 256 * 2 ^ 24 + n / 2 ^ 16 % 256 * 2 ^ 16 ||| n / 2 ^ 8 % 256 * 2 ^ 8 = n / 2 ^ 56 % 256 * 2 ^ 56 + n / 2 ^ 48 % 256 * 2 ^ 48 + n / 2 ^ 40 % 256 * 2 ^ 40 + n / 2 ^ 32 % 256 * 2 ^ 32 + n / 2 ^ 24 % 256 * 2 ^ 24 + n / 2 ^ 16 % 256 * 2 ^ 16 + n / 2 ^ 8 % 256 * 2 ^ 8 :=
    lor_eq_add_of_dvd (k := 16) (by omega) (by omega)
  rw [t6]
  have t7 : n / 2 ^ 56 % 256 * 2 ^ 56 + n / 2 ^ 48 % 256 * 2 ^ 48 + n / 2 ^ 40 % 256 * 2 ^ 40 + n / 2 ^ 32 % 256 * 2 ^ 32 + n / 2 ^ 24 % 256 * 2 ^ 24 + n / 2 ^ 16 % 256 * 2 ^ 16 + n / 2 ^ 8 % 256 * 2 ^ 8 ||| n % 256 = n / 2 ^ 56 % 256 * 2 ^ 56 + n / 2 ^ 48 % 256 * 2 ^ 48 + n / 2 ^ 40 % 256 * 2 ^ 40 + n / 2 ^ 32 % 256 * 2 ^ 32 + n / 2 ^ 24 % 256 * 2 ^ 24 + n / 2 ^ 16 % 256 * 2 ^ 16 + n / 2 ^ 8 % 256 * 2 ^ 8 + n % 256 :=
    lor_eq_add_of_dvd (k := 8) (by omega) (by omega)
  rw [t7]
  omega

theorem readUint32_enc (n : Nat) (r : List Nat) (h : n < 2 ^ 32) :
    readUint32 (encU32 n ++ r) = (Except.ok n, r) := by
  show readUint32 (n % 256 :: n / 256 % 256 :: n / 65536 % 256 ::
    n / 16777216 % 256 :: r) = (Except.ok n, r)
  rw [readUint32, readFull, if_pos (by simp only [List.length_cons]; omega)]
  simp only [List.take_succ_cons, List.take_zero, List.drop_succ_cons, List.drop_zero,
    List.getD_cons_succ, List.getD_cons_zero, List.headD_cons]
  rw [le32_eval n h]

theorem readUint64_enc (n : Nat) (r : List Nat) (h : n < 2 ^ 64) :
    readUint64 (encU64 n ++ r) = (Except.ok n, r) := by
  have he : encU64 n ++ r = n % 256 :: n / 256 % 256 :: n / 65536 % 256 ::
      n / 16777216 % 256 :: (n / 2 ^ 32) % 256 :: (n / 2 ^ 32) / 256 % 256 ::
      (n / 2 ^ 32) / 65536 % 256 :: (n / 2 ^ 32) / 16777216 % 256 :: r := by
    show (n % 2 ^ 32) % 256 :: (n % 2 ^ 32) / 256 % 256 :: (n % 2 ^ 32) / 65536 % 256 ::
      (n % 2 ^ 32) / 16777216 % 256 :: _ = _
    have e1 : (n % 2 ^ 32) % 256 = n % 256 := Nat.mod_mod_of_dvd n (by omega)
    have e2 : (n % 2 ^ 32) / 256 % 256 = n / 256 % 256 := by omega
    have e3 : (n % 2 ^ 32) / 65536 % 256 = n / 65536 % 256 := by omega
    have e4 : (n % 2 ^ 32) / 16777216 % 256 = n / 16777216 % 256 := by omega
    rw [e1, e2, e3, e4]
    rfl
  rw [he, readUint64, readFull, if_pos (by simp only [List.length_cons]; omega)]
  simp only [List.take_succ_cons, List.take_zero, List.drop_succ_cons, List.drop_zero,
    List.getD_cons_succ, List.getD_cons_zero, List.headD_cons]
  have : n / 2 ^ 32 % 256 = n / 2 ^ 32 % 256 := rfl
  have hg := le64_eval n h
  have d1 : n / 65536 = n / 2 ^ 16 := by norm_num
  have d2 : n / 16777216 = n / 2 ^ 24 := by norm_num
  have d3 : n / 2 ^ 32 / 256 = n / 2 ^ 40 := by
    rw [Nat.div_div_eq_div_mul]; norm_num
  have d4 : n / 2 ^ 32 / 65536 = n / 2 ^ 48 := by
    rw [Nat.div_div_eq_div_mul]; norm_num
  have d5 : n / 2 ^ 32 / 16777216 = n / 2 ^ 56 := by
    rw [Nat.div_div_eq_div_mul]; norm_num
  rw [d1, d2, d3, d4, d5]
  rw [show n / 256 = n / 2 ^ 8 from by norm_num, hg]

theorem pad4_ge (n : Nat) : n ≤ pad4 n := by
  unfold pad4; split <;> omega

theorem rsz_eq_pad4 {sz : Nat} (h : pad4 sz < 2 ^ 32) :
    (if sz % 4 ≠ 0 then (sz + (4 - sz % 4)) % 2 ^ 32 else sz) = pad4 sz := by
  unfold pad4 at *
  by_cases h4 : sz % 4 = 0
  · simp [h4]
  · simp only [h4, ne_eq, not_false_eq_true, if_true, if_neg h4] at *
    exact Nat.mod_eq_of_lt h

theorem readString_padded (sz : Nat) (payload rest : List Nat)
    (hlen : payload.length = pad4 sz) (hsz : pad4 sz < 2 ^ 32) :
    readString (encU32 sz ++ (payload ++ rest)) =
      some (Except.ok (payload.take sz), rest) := by
  have hsz32 : sz < 2 ^ 32 := Nat.lt_of_le_of_lt (pad4_ge sz) hsz
  rw [readString, readUint32_enc sz (payload ++ rest) hsz32]
  dsimp only
  rw [rsz_eq_pad4 hsz, readFull,
    if_pos (by rw [List.length_append, hlen]; omega),
    List.take_left' hlen, List.drop_left' hlen]
  dsimp only
  rw [if_neg (by have := pad4_ge sz; omega)]

theorem readString16_padded (sz : Nat) (payload rest : List Nat)
    (hlen : payload.length = pad4 (2 * sz)) (hsz : pad4 (2 * sz) < 2 ^ 32) :
    readString16 (encU32 sz ++ (payload ++ rest)) =
      some (Except.ok (goStr16 (toUnits (payload.take (2 * sz)))), rest) := by
  have h2 : 2 * sz < 2 ^ 32 := Nat.lt_of_le_of_lt (pad4_ge _) hsz
  have hsz32 : sz < 2 ^ 32 := by omega
  rw [readString16, readUint32_enc sz (payload ++ rest) hsz32]
  dsimp only
  rw [show sz * 2 % 2 ^ 32 = 2 * sz from by omega, rsz_eq_pad4 hsz, readFull,
    if_pos (by rw [List.length_append, hlen]; omega),
    List.take_left' hlen, List.drop_left' hlen]
  dsimp only
  rw [if_neg (by have := pad4_ge (2 * sz); omega)]

theorem readString_short (sz : Nat) (s : List Nat)
    (hlen : s.length < pad4 sz) (hsz : pad4 sz < 2 ^ 32) :
    ∃ e, readString (encU32 sz ++ s) = some (Except.error e, []) := by
  have hsz32 : sz < 2 ^ 32 := Nat.lt_of_le_of_lt (pad4_ge sz) hsz
  rw [readString, readUint32_enc sz s hsz32]
  dsimp only
  rw [rsz_eq_pad4 hsz, readFull, if_neg (by omega)]
  by_cases h0 : s.length = 0
  · rw [if_pos h0]; exact ⟨ReadErr.eof, rfl⟩
  · rw [if_neg h0]; exact ⟨ReadErr.unexpectedEOF, rfl⟩

theorem readString16_short (sz : Nat) (s : List Nat)
    (hlen : s.length < pad4 (2 * sz)) (hsz : pad4 (2 * sz) < 2 ^ 32) :
    ∃ e, readString16 (encU32 sz ++ s) = some (Except.error e, []) := by
  have h2 : 2 * sz < 2 ^ 32 := Nat.lt_of_le_of_lt (pad4_ge _) hsz
  have hsz32 : sz < 2 ^ 32 := by omega
  rw [readString16, readUint32_enc sz s hsz32]
  dsimp only
  rw [show sz * 2 % 2 ^ 32 = 2 * sz from by omega, rsz_eq_pad4 hsz, readFull,
    if_neg (by omega)]
  by_cases h0 : s.length = 0
  · rw [if_pos h0]; exact ⟨ReadErr.eof, rfl⟩
  · rw [if_neg h0]; exact ⟨ReadErr.unexpectedEOF, rfl⟩

theorem unitBytes_length (units : List Nat) :
    (units.flatMap (fun u => [u % 256, u / 256 % 256])).length = 2 * units.length := by
  induction units with
  | nil => rfl
  | cons u us ih => simp [ih]; omega

theorem toUnits_unitBytes (units : List Nat) (hu : ∀ u ∈ units, u < 2 ^ 16) :
    toUnits (units.flatMap (fun u => [u % 256, u / 256 % 256])) = units := by
  induction units with
  | nil => rfl
  | cons u us ih =>
      have hu0 : u < 2 ^ 16 := hu u (by simp)
      have hrest : ∀ v ∈ us, v < 2 ^ 16 := fun v hv => hu v (by simp [hv])
      have step : (u :: us).flatMap (fun u => [u % 256, u / 256 % 256]) =
          u % 256 :: u / 256 % 256 ::
            us.flatMap (fun u => [u % 256, u / 256 % 256]) := rfl
      rw [step]
      show ((u / 256 % 256) <<< 8 ||| u % 256) ::
          toUnits (us.flatMap fun u => [u % 256, u / 256 % 256]) = u :: us
      rw [ih hrest]
      congr 1
      have h256 : u / 256 % 256 = u / 256 := Nat.mod_eq_of_lt (by omega)
      rw [h256, Nat.shiftLeft_eq,
        lor_eq_add_of_dvd (k := 8) (by omega) (by omega)]
      omega

theorem encStr_decode (u : GoStr) (r : List Nat) (h : pad4 u.length < 2 ^ 32) :
    readString (encStr u ++ r) = some (Except.ok u, r) := by
  have hpl : (u ++ List.replicate (pad4 u.length - u.length) 0).length = pad4 u.length := by
    simp [List.length_append, List.length_replicate]
    have := pad4_ge u.length
    omega
  have := readString_padded u.length (u ++ List.replicate (pad4 u.length - u.length) 0) r hpl h
  rw [List.take_left] at this
  rw [encStr, List.append_assoc, List.append_assoc]
  rw [← List.append_assoc u, this]

theorem encStr16_decode (units : List Nat) (r : List Nat)
    (h : pad4 (2 * units.length) < 2 ^ 32) (hu : ∀ u ∈ units, u < 2 ^ 16) :
    readString16 (encStr16 units ++ r) = some (Except.ok (goStr16 units), r) := by
  have hul := unitBytes_length units
  have hpl : ((units.flatMap (fun u => [u % 256, u / 256 % 256])) ++
      List.replicate (pad4 (2 * units.length) - 2 * units.length) 0).length =
      pad4 (2 * units.length) := by
    simp only [List.length_append, List.length_replicate, hul]
    have := pad4_ge (2 * units.length)
    omega
  have hmain := readString16_padded units.length
    ((units.flatMap (fun u => [u % 256, u / 256 % 256])) ++
      List.replicate (pad4 (2 * units.length) - 2 * units.length) 0) r hpl h
  rw [List.take_left' hul, toUnits_unitBytes units hu] at hmain
  rw [encStr16, List.append_assoc, List.append_assoc]
  rw [← List.append_assoc (units.flatMap (fun u => [u % 256, u / 256 % 256])), hmain]

theorem alGet_alSet_self {κ α : Type} [DecidableEq κ] (k : κ) (f : α → α) (d : α)
    (m : List (κ × α)) :
    alGet k (alSet k f d m) = some (f ((alGet k m).getD d)) := by
  induction m with
  | nil => simp [alGet, alSet]
  | cons kv m ih =>
      obtain ⟨k', v⟩ := kv
      by_cases hk : k' = k
      · subst hk
        simp [alGet, alSet]
      · simp [alGet, alSet, hk, ih]

theorem alGet_alSet_ne {κ α : Type} [DecidableEq κ] {k k' : κ} (f : α → α) (d : α)
    (m : List (κ × α)) (h : k' ≠ k) :
    alGet k' (alSet k f d m) = alGet k' m := by
  induction m with
  | nil =>
      simp only [alSet, alGet]
      rw [if_neg (fun hh => h hh.symm)]
  | cons kv m ih =>
      obtain ⟨k'', v⟩ := kv
      by_cases hk : k'' = k
      · subst hk
        simp only [alSet, if_pos rfl, alGet]
        rw [if_neg (fun hh => h hh.symm), if_neg (fun hh => h hh.symm)]
      · simp only [alSet, if_neg hk, alGet]
        rw [ih]

/-! ## Claim theorems -/

/-- Claim C1 (code bug in the source): window numbering is NOT assigned
in a stable caller-deterministic order — it follows the iteration order
of the Go window map, which is unspecified.  On a stream with two
windows, both enumeration orders `[1, 2]` and `[2, 1]` of the very same
window-key set are possible iterations of that map, and they yield
different output sequences (the sequential window ids swap), violating
the claimed run-to-run determinism. -/
theorem parse_window_numbering_follows_map_iteration_order :
    ((phase1 (afterLoop twoWinTail) [1, 2]).windows.map Prod.fst) = [1, 2] ∧
    List.Perm [2, 1] [1, 2] ∧
    parseSessionFile (encHeader 1 ++ twoWinTail) [99] sameDomain [1, 2] [1, 2] ≠
      parseSessionFile (encHeader 1 ++ twoWinTail) [99] sameDomain [1, 2] [2, 1] := by
  refine ⟨?_, by decide, ?_⟩
  · simp only [afterLoop, runLoop_eq_runLoopF]
    decide
  · simp only [parseSessionFile, runLoop_eq_runLoopF]
    decide

/-- Claim C2, counterexample: on a recognized command whose payload is
too short, the source does NOT leave the state unchanged — the discarded
read errors yield zero values and the mutation still happens (here an
empty `UpdateTabNavigation` payload creates tab 0 with a blank history
item).  Moreover a short string whose 4-byte length prefix is huge does
abort the whole parse, with a slice-bounds panic. -/
theorem processCommand_truncated_payload_mutates_state :
    (processCommand newSessionParser kCommandUpdateTabNavigation []).isSome = true ∧
    processCommand newSessionParser kCommandUpdateTabNavigation [] ≠
      some newSessionParser ∧
    processCommand newSessionParser kCommandUpdateTabNavigation
      (encU32 0 ++ encU32 0 ++ encU32 0 ++ [255, 255, 255, 255]) = none := by
  refine ⟨by decide, by decide, by decide⟩

/-- Claim C2, amended: a decode failure inside a recognized command's
payload does not make the record loop return an error — processing
continues with the next record and later commands take full effect — but
the malformed command is not atomically abandoned: its fields decode to
zero/empty defaults and its mutation is still applied (tab 5 keeps a
blank history item at index 2 next to the intact item written by the
later record). -/
theorem parse_continues_after_short_payload_with_default_fields :
    runLoop newSessionParser shortNavTail = some (Except.ok (afterLoop shortNavTail)) ∧
    alGet 5 (afterLoop shortNavTail).tabs =
      some ⟨5, [⟨2, [], []⟩, ⟨0, [97], [65]⟩], 0, 1, false, 0, none⟩ ∧
    parseSessionFile (encHeader 1 ++ shortNavTail) [99] sameDomain [5] [1] =
      POutcome.ok [⟨[97], [65], [97], false, false, [], 1, [99]⟩] := by
  refine ⟨?_, ?_, ?_⟩
  · simp only [afterLoop, runLoop_eq_runLoopF]
    decide
  · simp only [afterLoop, runLoop_eq_runLoopF]
    decide
  · simp only [parseSessionFile, afterLoop, runLoop_eq_runLoopF]
    decide

/-- Claim C3, counterexample: the group map key is
`fmt.Sprintf("%x%x", high, low)`, which is not injective on the pair —
the distinct pairs `(0x1, 0x23)` and `(0x12, 0x3)` both render as
`"123"`, so two `SetTabGroup` commands naming them share one canonical
instance, and metadata written under the first pair is observed through a
tab that named the second. -/
theorem distinct_group_pairs_can_share_one_instance :
    (afterCmds collidingGroupCmds).groups.length = 1 ∧
    ((1, 35) : Nat × Nat) ≠ (18, 3) ∧
    grpKey 1 35 = grpKey 18 3 ∧
    (alGet 2 (afterCmds collidingGroupCmds).tabs).map
      (fun t => groupName (afterCmds collidingGroupCmds) t) = some [71] := by
  refine ⟨by decide, by decide, by decide, by decide⟩

/-- Claim C4: a record whose 2-byte size field is 0 makes the source
compute `make([]byte, int(sz)-1)` with length `-1`, a runtime panic
rather than a `TruncatedRecord` error — concretely on a stream with a
valid header, and in general whenever the loop meets a size field 0
followed by a type byte, for every state. -/
theorem zero_record_size_panics :
    parseSessionFile (encHeader 1 ++ [0, 0, 9]) [] sameDomain [] [] =
      POutcome.panicked ∧
    ∀ (p : SessionParser) (t : Nat) (rest : List Nat),
      runLoop p (0 :: 0 :: t :: rest) = none := by
  constructor
  · simp only [parseSessionFile, runLoop_eq_runLoopF]
    decide
  · intro p t rest
    have h16 : readUint16 (0 :: 0 :: t :: rest) = (Except.ok 0, t :: rest) := by
      simp [readUint16, readFull]
    have h8 : readUint8 (t :: rest) = (Except.ok t, rest) := by
      simp [readUint8, readFull]
    rw [runLoop.eq_def, h16]
    dsimp only
    rw [h8]
    rfl

/-- Claim C6, counterexample: a window can be designated active while no
emitted tab is marked active — here `activeTabIdx = 5` exceeds every
emitted position, so the parse emits one entry with `active = false`
although `SetActiveWindow` designated its window; this refutes "exactly
one tab has active = true whenever a window is marked active". -/
theorem active_window_set_but_no_active_tab :
    (afterLoop activeIdxOutOfRangeTail).activeWindow = some 1 ∧
    parseSessionFile (encHeader 1 ++ activeIdxOutOfRangeTail) [99] sameDomain [1] [1] =
      POutcome.ok [⟨[97], [], [97], false, false, [], 1, [99]⟩] := by
  refine ⟨?_, ?_⟩
  · simp only [afterLoop, runLoop_eq_runLoopF]
    decide
  · simp only [parseSessionFile, runLoop_eq_runLoopF]
    decide

/-- Claim C7, counterexample: when the history item at
`currentHistoryIndex` exists but carries an empty url, the source does
not use that item — the fallback to the last history item fires and
replaces both url and title. -/
theorem matching_item_with_empty_url_not_used :
    resolveURLTitle [⟨0, [], [84]⟩, ⟨1, [104], [88]⟩] 0 = ([104], [88]) ∧
    List.find? (fun (h : historyItem) => h.idx == 0)
        ([⟨0, [], [84]⟩, ⟨1, [104], [88]⟩] : List historyItem) =
      some ⟨0, [], [84]⟩ ∧
    (([104], [88]) : GoStr × GoStr) ≠ ([], [84]) := by
  refine ⟨by decide, by decide, by decide⟩

/-- Claim C10, counterexample: a byte-string length prefix of
`0xFFFFFFFF` makes the 32-bit padded length wrap to 0, so `b[:sz]`
panics (slice bound out of range) instead of failing with an
end-of-data error; a wide-string character count of `0x7FFFFFFF`
similarly wraps the padded byte length to 0 and the decode loop panics
indexing past the buffer. -/
theorem huge_length_prefix_panics :
    readString [255, 255, 255, 255] = none ∧
    readString16 [255, 255, 255, 127] = none := by
  refine ⟨by decide, by decide⟩

/-- Claim C10, amended: the claimed reader contract holds whenever the
padded length computed in 32-bit arithmetic does not wrap (byte strings:
`pad4 n < 2^32`; wide strings: `pad4 (2n) < 2^32`): the byte-string
reader consumes exactly the padded length and returns the first `n`
payload bytes; the wide-string reader consumes the padded byte length
`2n` and returns the UTF-16 decoding of the `2n` little-endian code-unit
bytes; and a short read fails the whole read with an end-of-data error,
draining the cursor and producing no partial value.  Beyond that range
the 32-bit computation wraps (see the counterexample). -/
theorem string_readers_consume_padded_length :
    (∀ (sz : Nat) (payload rest : List Nat),
      payload.length = pad4 sz → pad4 sz < 2 ^ 32 →
      readString (encU32 sz ++ (payload ++ rest)) =
        some (Except.ok (payload.take sz), rest)) ∧
    (∀ (sz : Nat) (payload rest : List Nat),
      payload.length = pad4 (2 * sz) → pad4 (2 * sz) < 2 ^ 32 →
      readString16 (encU32 sz ++ (payload ++ rest)) =
        some (Except.ok (goStr16 (toUnits (payload.take (2 * sz)))), rest)) ∧
    (∀ (sz : Nat) (s : List Nat),
      s.length < pad4 sz → pad4 sz < 2 ^ 32 →
      ∃ e, readString (encU32 sz ++ s) = some (Except.error e, [])) ∧
    (∀ (sz : Nat) (s : List Nat),
      s.length < pad4 (2 * sz) → pad4 (2 * sz) < 2 ^ 32 →
      ∃ e, readString16 (encU32 sz ++ s) = some (Except.error e, [])) :=
  ⟨readString_padded, readString16_padded, readString_short, readString16_short⟩

theorem string_readers_consume_padded_length_witness :
    readString (encU32 3 ++ ([97, 98, 99, 0] ++ [5, 5])) =
      some (Except.ok (List.take 3 [97, 98, 99, 0]), [5, 5]) ∧
    readString16 (encU32 1 ++ ([65, 0, 0, 0] ++ [7])) =
      some (Except.ok (goStr16 (toUnits (List.take 2 [65, 0, 0, 0]))), [7]) ∧
    (∃ e, readString (encU32 3 ++ [9]) = some (Except.error e, [])) ∧
    (∃ e, readString16 (encU32 1 ++ [9]) = some (Except.error e, [])) :=
  ⟨string_readers_consume_padded_length.1 3 [97, 98, 99, 0] [5, 5] (by decide) (by decide),
   string_readers_consume_padded_length.2.1 1 [65, 0, 0, 0] [7] (by decide) (by decide),
   string_readers_consume_padded_length.2.2.1 3 [9] (by decide) (by decide),
   string_readers_consume_padded_length.2.2.2 1 [9] (by decide) (by decide)⟩

/-- Claim C3, amended: the `(highId, lowId)` pair addresses one canonical
instance — every `SetTabGroupMetadata2` naming a pair reads and mutates
exactly the group-map entry at key `"%x%x"` of that pair, leaving every
other key untouched — so two commands naming the same pair mutate the
same instance; but the key is the concatenation of the two unpadded hex
renderings, which is not injective, so distinct pairs are only guaranteed
distinct instances when their concatenated renderings differ (see the
counterexample for a collision). -/
theorem same_pair_same_group_instance :
    ∀ (p : SessionParser) (high low : Nat) (nameUnits : List Nat),
      high < 2 ^ 64 → low < 2 ^ 64 →
      pad4 (2 * nameUnits.length) < 2 ^ 32 → (∀ u ∈ nameUnits, u < 2 ^ 16) →
      ∃ p',
        processCommand p kCommandSetTabGroupMetadata2
            (encMetaPayload high low nameUnits) = some p' ∧
        (alGet (grpKey high low) p'.groups).map tabGroup.name =
          some (goStr16 nameUnits) ∧
        (∀ k, k ≠ grpKey high low → alGet k p'.groups = alGet k p.groups) ∧
        p'.tabs = p.tabs ∧ p'.windows = p.windows ∧
        p'.activeWindow = p.activeWindow := by
  intro p high low units h64h h64l hpad hu
  refine ⟨updGroup p high low (fun g => { g with name := goStr16 units }),
    ?_, ?_, ?_, rfl, rfl, rfl⟩
  · rw [processCommand]
    rw [if_neg (by decide), if_neg (by decide), if_pos rfl]
    rw [show encMetaPayload high low units =
      encU32 0 ++ (encU64 high ++ (encU64 low ++ encStr16 units)) from by
        simp [encMetaPayload, List.append_assoc]]
    rw [readUint32_enc 0 _ (by norm_num)]
    dsimp only
    rw [readUint64_enc high _ h64h]
    dsimp only
    rw [readUint64_enc low _ h64l]
    dsimp only
    rw [show encStr16 units = encStr16 units ++ [] from (List.append_nil _).symm,
      encStr16_decode units [] hpad hu]
    rfl
  · simp [updGroup, alGet_alSet_self]
  · intro k hk
    simp [updGroup, alGet_alSet_ne _ _ _ hk]

theorem same_pair_same_group_instance_witness :
    ∃ p',
      processCommand newSessionParser kCommandSetTabGroupMetadata2
          (encMetaPayload 1 35 [71]) = some p' ∧
      (alGet (grpKey 1 35) p'.groups).map tabGroup.name = some (goStr16 [71]) ∧
      (∀ k, k ≠ grpKey 1 35 → alGet k p'.groups = alGet k newSessionParser.groups) ∧
      p'.tabs = newSessionParser.tabs ∧ p'.windows = newSessionParser.windows ∧
      p'.activeWindow = newSessionParser.activeWindow :=
  same_pair_same_group_instance newSessionParser 1 35 [71]
    (by decide) (by decide) (by decide) (by decide)

theorem mem_of_getLastEq {α : Type} :
    ∀ {l : List α} {a : α}, l.getLast? = some a → a ∈ l := by
  intro l
  induction l with
  | nil => intro a h; simp at h
  | cons x t ih =>
      intro a h
      cases t with
      | nil => simp at h; simp [h]
      | cons y t' =>
          rw [List.getLast?_cons_cons] at h
          exact List.mem_cons_of_mem x (ih h)

theorem getLast_le_of_pairwise :
    ∀ (l : List historyItem) (lastI : historyItem),
      l.getLast? = some lastI →
      l.Pairwise (fun a b => a.idx ≤ b.idx) →
      ∀ h ∈ l, h.idx ≤ lastI.idx := by
  intro l
  induction l with
  | nil => intro lastI h; simp at h
  | cons x t ih =>
      intro lastI hl hp h hh
      cases t with
      | nil =>
          simp at hl
          rcases List.mem_singleton.mp hh with rfl
          subst hl
          exact Nat.le_refl _
      | cons y t' =>
          rw [List.getLast?_cons_cons] at hl
          have hx := List.pairwise_cons.mp hp
          rcases List.mem_cons.mp hh with rfl | hmem
          · exact hx.1 lastI (mem_of_getLastEq hl)
          · exact ih lastI hl hx.2 h hmem

/-- Claim C7, amended: if the history item at `currentHistoryIndex`
exists and its url is non-empty, its url and title are used.  If no item
matches, the assembler falls back to the last history item (url and
title), which under the ascending sort applied by the assembler is the
item with the greatest index; the fallback also fires when the matching
item's url is empty (see the counterexample).  A tab with no history
resolves to empty url and title. -/
theorem resolve_fallback_laws :
    (∀ (hist : List historyItem) (cur : Nat), hist ≠ [] →
      (∀ h ∈ hist, h.idx ≠ cur) →
      ∃ lastI, hist.getLast? = some lastI ∧
        resolveURLTitle hist cur = (lastI.url, lastI.title) ∧
        (hist.Pairwise (fun a b => a.idx ≤ b.idx) →
          ∀ h ∈ hist, h.idx ≤ lastI.idx)) ∧
    (∀ (hist : List historyItem) (cur : Nat) (h : historyItem),
      hist.find? (fun x => x.idx == cur) = some h → h.url ≠ [] →
      resolveURLTitle hist cur = (h.url, h.title)) ∧
    (∀ cur, resolveURLTitle [] cur = ([], [])) := by
  refine ⟨?_, ?_, fun cur => rfl⟩
  · intro hist cur hne hno
    have hf : hist.find? (fun x => x.idx == cur) = none := by
      rw [List.find?_eq_none]
      intro x hx
      simp [hno x hx]
    obtain ⟨lastI, hlast⟩ := Option.isSome_iff_exists.mp
      (List.getLast?_isSome.mpr hne)
    refine ⟨lastI, hlast, ?_, fun hp => getLast_le_of_pairwise hist lastI hlast hp⟩
    unfold resolveURLTitle
    rw [hf]
    dsimp only
    rw [if_pos rfl, hlast]
  · intro hist cur h hf hurl
    unfold resolveURLTitle
    rw [hf]
    dsimp only
    rw [if_neg hurl]

theorem resolve_fallback_laws_witness :
    (∃ lastI, ([⟨3, [97], [98]⟩] : List historyItem).getLast? = some lastI ∧
      resolveURLTitle [⟨3, [97], [98]⟩] 7 = (lastI.url, lastI.title) ∧
      (([⟨3, [97], [98]⟩] : List historyItem).Pairwise (fun a b => a.idx ≤ b.idx) →
        ∀ h ∈ ([⟨3, [97], [98]⟩] : List historyItem), h.idx ≤ lastI.idx)) ∧
    resolveURLTitle [⟨0, [99], [98]⟩] 0 = ([99], [98]) :=
  ⟨resolve_fallback_laws.1 [⟨3, [97], [98]⟩] 7 (by decide) (by decide),
   resolve_fallback_laws.2.1 [⟨0, [99], [98]⟩] 0 ⟨0, [99], [98]⟩
     (by decide) (by decide)⟩

theorem emitTabs_false_no_active (p : SessionParser) (xd : GoStr → GoStr)
    (br : GoStr) (aIdx wid : Nat) :
    ∀ (c : Nat) (ts : List sessionTab),
      (emitTabs p xd br false aIdx wid c ts).countP (fun e => e.active) = 0 := by
  intro c ts
  induction ts generalizing c with
  | nil => rfl
  | cons t ts ih =>
      rw [emitTabs]
      by_cases hd : t.deleted
      · simp only [hd, if_pos rfl]
        exact ih c
      · simp only [hd, if_neg, Bool.false_eq_true, ite_false]
        by_cases hu : (resolveURLTitle t.history t.currentHistoryIdx).1 = []
        · rw [if_pos hu]
          exact ih c
        · rw [if_neg hu]
          rw [List.countP_cons]
          simp only [Bool.false_and]
          simp [ih (c + 1)]

theorem emitTabs_true_active_bound (p : SessionParser) (xd : GoStr → GoStr)
    (br : GoStr) (aIdx wid : Nat) :
    ∀ (c : Nat) (ts : List sessionTab),
      (emitTabs p xd br true aIdx wid c ts).countP (fun e => e.active) ≤ 1 ∧
      (aIdx < c →
        (emitTabs p xd br true aIdx wid c ts).countP (fun e => e.active) = 0) := by
  intro c ts
  induction ts generalizing c with
  | nil => exact ⟨by simp [emitTabs], fun _ => by simp [emitTabs]⟩
  | cons t ts ih =>
      rw [emitTabs]
      by_cases hd : t.deleted
      · simp only [hd, if_pos rfl]
        exact ih c
      · simp only [hd, Bool.false_eq_true, ite_false]
        by_cases hu : (resolveURLTitle t.history t.currentHistoryIdx).1 = []
        · rw [if_pos hu]
          exact ih c
        · rw [if_neg hu, List.countP_cons]
          simp only [Bool.true_and]
          by_cases hc : c = aIdx
          · subst hc
            have h0 := (ih (c + 1)).2 (Nat.lt_succ_self c)
            simp [h0]
          · have hbeq : (c == aIdx) = false := by
              simp [hc]
            rw [hbeq]
            constructor
            · simpa using (ih (c + 1)).1
            · intro hlt
              have := (ih (c + 1)).2 (Nat.lt_trans hlt (Nat.lt_succ_self c))
              simpa using this

theorem phase3_no_active (p : SessionParser) (xd : GoStr → GoStr) (br : GoStr) :
    ∀ (wid : Nat) (ks : List Nat),
      (∀ k ∈ ks, p.activeWindow ≠ some k) →
      (phase3 p xd br wid ks).countP (fun e => e.active) = 0 := by
  intro wid ks
  induction ks generalizing wid with
  | nil => intro _; rfl
  | cons k ks ih =>
      intro hks
      rw [phase3]
      cases hg : alGet k p.windows with
      | none => exact ih wid (fun j hj => hks j (List.mem_cons_of_mem k hj))
      | some w =>
          by_cases hd : w.deleted
          · simp only [hd, if_pos rfl]
            exact ih wid (fun j hj => hks j (List.mem_cons_of_mem k hj))
          · simp only [hd, Bool.false_eq_true, ite_false]
            rw [List.countP_append]
            have hbeq : (p.activeWindow == some k) = false := by
              have := hks k (List.mem_cons_self k ks)
              simp [this]
            rw [hbeq, emitTabs_false_no_active,
              ih (wid + 1) (fun j hj => hks j (List.mem_cons_of_mem k hj))]

theorem phase3_active_bound (p : SessionParser) (xd : GoStr → GoStr) (br : GoStr) :
    ∀ (wid : Nat) (ks : List Nat), ks.Nodup →
      (phase3 p xd br wid ks).countP (fun e => e.active) ≤ 1 ∧
      (p.activeWindow = none →
        (phase3 p xd br wid ks).countP (fun e => e.active) = 0) := by
  intro wid ks
  induction ks generalizing wid with
  | nil => intro _; exact ⟨by simp [phase3], fun _ => by simp [phase3]⟩
  | cons k ks ih =>
      intro hnd
      have hnd' := (List.nodup_cons.mp hnd).2
      have hkn := (List.nodup_cons.mp hnd).1
      rw [phase3]
      cases hg : alGet k p.windows with
      | none => exact ih wid hnd'
      | some w =>
          by_cases hd : w.deleted
          · simp only [hd, if_pos rfl]
            exact ih wid hnd'
          · simp only [hd, Bool.false_eq_true, ite_false]
            rw [List.countP_append]
            cases hA : (p.activeWindow == some k) with
            | false =>
                rw [emitTabs_false_no_active]
                have hih := ih (wid + 1) hnd'
                refine ⟨by simpa using hih.1, fun hn => by simpa using hih.2 hn⟩
            | true =>
                have hAk : p.activeWindow = some k := by
                  simpa using hA
                have htail : (phase3 p xd br (wid + 1) ks).countP
                    (fun e => e.active) = 0 := by
                  apply phase3_no_active
                  intro j hj hcon
                  rw [hAk] at hcon
                  obtain rfl : k = j := by injection hcon
                  exact hkn hj
                have hhead := (emitTabs_true_active_bound p xd br
                  w.activeTabIdx (wid + 1) 0 w.tabs).1
                refine ⟨by omega, fun hn => ?_⟩
                rw [hAk] at hn
                exact absurd hn (by simp)

theorem phase1_activeWindow : ∀ (tabOrder : List Nat) (p : SessionParser),
    (phase1 p tabOrder).activeWindow = p.activeWindow := by
  intro tabOrder
  induction tabOrder with
  | nil => intro p; rfl
  | cons tid rest ih =>
      intro p
      have h1 : phase1 p (tid :: rest) = phase1 (match alGet tid p.tabs with
        | none => p
        | some t =>
            let t' := { t with history := sortByKey historyItem.idx t.history }
            let q' := { p with tabs := alSet tid (fun _ => t') (zeroTab tid) p.tabs }
            updWindow q' t.win (fun w => { w with tabs := w.tabs ++ [t'] })) rest := rfl
      rw [h1, ih]
      cases alGet tid p.tabs <;> rfl

/-- Claim C6, amended: for any state and any duplicate-free window
iteration order, at most one emitted entry has `active = true`, and none
has when no window was designated by `SetActiveWindow`.  (Exactly one is
not guaranteed even when a window is designated: the designated window's
`activeTabIdx` may exceed every emitted position — see the
counterexample.) -/
theorem at_most_one_active_entry :
    ∀ (p : SessionParser) (br : GoStr) (xd : GoStr → GoStr)
      (tabOrder winOrder : List Nat), winOrder.Nodup →
      (buildTabEntries p br xd tabOrder winOrder).countP (fun e => e.active) ≤ 1 ∧
      (p.activeWindow = none →
        (buildTabEntries p br xd tabOrder winOrder).countP
          (fun e => e.active) = 0) := by
  intro p br xd tabOrder winOrder hnd
  have hb := phase3_active_bound (phase2 (phase1 p tabOrder)) xd br 0 winOrder hnd
  have hA : (phase2 (phase1 p tabOrder)).activeWindow = p.activeWindow := by
    show (phase1 p tabOrder).activeWindow = p.activeWindow
    exact phase1_activeWindow tabOrder p
  simp only [buildTabEntries]
  exact ⟨hb.1, fun hn => hb.2 (by rw [hA, hn])⟩

theorem at_most_one_active_entry_witness :
    (buildTabEntries newSessionParser [99] sameDomain [] [1, 2]).countP
      (fun e => e.active) ≤ 1 ∧
    (newSessionParser.activeWindow = none →
      (buildTabEntries newSessionParser [99] sameDomain [] [1, 2]).countP
        (fun e => e.active) = 0) :=
  at_most_one_active_entry newSessionParser [99] sameDomain [] [1, 2] (by decide)

/-- Modelled from the spec (section 4.4, steps 4-6): a tab survives
filtering when it is not deleted and its resolved URL is non-empty. -/
def keepTab (t : sessionTab) : Bool :=
  !t.deleted && !decide ((resolveURLTitle t.history t.currentHistoryIdx).1 = [])

/-- Modelled from the spec (section 4.4, step 4): a window key counts
when the window exists and is not deleted. -/
def keepWin (p : SessionParser) (k : Nat) : Bool :=
  match alGet k p.windows with
  | some w => !w.deleted
  | none => false

/-- The record emitted for one surviving tab (spec section 4.4 step 6.f,
matching the entry literal of `buildTabEntries`). -/
def mkEntry (p : SessionParser) (xd : GoStr → GoStr) (br : GoStr)
    (isAct : Bool) (aIdx wid c : Nat) (t : sessionTab) : TabEntry :=
  let r := resolveURLTitle t.history t.currentHistoryIdx
  { url := r.1, title := r.2, domain := xd r.1,
    active := isAct && (c == aIdx), pinned := false,
    group := groupName p t, windowID := wid, browser := br }

/-- Modelled from the spec (section 4.4, step 5): emit one entry per
surviving tab, the position counter advancing once per element. -/
def emitOver (p : SessionParser) (xd : GoStr → GoStr) (br : GoStr)
    (isAct : Bool) (aIdx wid : Nat) : Nat → List sessionTab → List TabEntry
  | _, [] => []
  | c, t :: ts =>
      mkEntry p xd br isAct aIdx wid c t ::
        emitOver p xd br isAct aIdx wid (c + 1) ts

/-- Modelled from the spec (section 4.4, step 4): over a list of
surviving window keys, every key consumes the next sequential id and
emits its filtered tabs. -/
def winsOver (p : SessionParser) (xd : GoStr → GoStr) (br : GoStr) :
    Nat → List Nat → List TabEntry
  | _, [] => []
  | wid, k :: ks =>
      match alGet k p.windows with
      | none => winsOver p xd br wid ks
      | some w =>
          emitOver p xd br (p.activeWindow == some k) w.activeTabIdx
              (wid + 1) 0 (w.tabs.filter keepTab) ++
            winsOver p xd br (wid + 1) ks

theorem emitTabs_eq_emitOver (p : SessionParser) (xd : GoStr → GoStr)
    (br : GoStr) (isAct : Bool) (aIdx wid : Nat) :
    ∀ (c : Nat) (ts : List sessionTab),
      emitTabs p xd br isAct aIdx wid c ts =
        emitOver p xd br isAct aIdx wid c (ts.filter keepTab) := by
  intro c ts
  induction ts generalizing c with
  | nil => rfl
  | cons t ts ih =>
      rw [emitTabs]
      by_cases hd : t.deleted
      · have hk : keepTab t = false := by simp [keepTab, hd]
        simp only [hd, if_pos rfl, List.filter_cons, hk, Bool.false_eq_true,
          ite_false]
        exact ih c
      · by_cases hu : (resolveURLTitle t.history t.currentHistoryIdx).1 = []
        · have hk : keepTab t = false := by simp [keepTab, hd, hu]
          simp only [hd, Bool.false_eq_true, ite_false, hu, if_pos rfl,
            List.filter_cons, hk]
          exact ih c
        · have hk : keepTab t = true := by simp [keepTab, hd, hu]
          simp only [hd, Bool.false_eq_true, ite_false, hu, List.filter_cons, hk,
            ite_true]
          rw [emitOver, ih (c + 1)]
          rfl

theorem phase3_eq_winsOver (p : SessionParser) (xd : GoStr → GoStr) (br : GoStr) :
    ∀ (wid : Nat) (ks : List Nat),
      phase3 p xd br wid ks = winsOver p xd br wid (ks.filter (keepWin p)) := by
  intro wid ks
  induction ks generalizing wid with
  | nil => rfl
  | cons k ks ih =>
      rw [phase3]
      cases hg : alGet k p.windows with
      | none =>
          have hk : keepWin p k = false := by simp [keepWin, hg]
          simp only [List.filter_cons, hk, Bool.false_eq_true, ite_false]
          exact ih wid
      | some w =>
          by_cases hd : w.deleted
          · have hk : keepWin p k = false := by simp [keepWin, hg, hd]
            simp only [hd, if_pos rfl, List.filter_cons, hk, Bool.false_eq_true,
              ite_false]
            exact ih wid
          · have hk : keepWin p k = true := by simp [keepWin, hg, hd]
            simp only [hd, Bool.false_eq_true, ite_false, List.filter_cons, hk,
              ite_true, winsOver, hg]
            rw [emitTabs_eq_emitOver, ih (wid + 1)]

theorem emitOver_mem (p : SessionParser) (xd : GoStr → GoStr) (br : GoStr)
    (isAct : Bool) (aIdx wid : Nat) :
    ∀ (c : Nat) (ts : List sessionTab),
      (∀ t ∈ ts, keepTab t = true) →
      ∀ e ∈ emitOver p xd br isAct aIdx wid c ts,
        e.url ≠ [] ∧ e.windowID = wid := by
  intro c ts
  induction ts generalizing c with
  | nil => intro _ e he; simp [emitOver] at he
  | cons t ts ih =>
      intro hts e he
      rw [emitOver] at he
      rcases List.mem_cons.mp he with rfl | hmem
      · have hk := hts t (List.mem_cons_self t ts)
        have hu : ¬(resolveURLTitle t.history t.currentHistoryIdx).1 = [] := by
          simp [keepTab] at hk
          exact hk.2
        exact ⟨hu, rfl⟩
      · exact ih (c + 1) (fun x hx => hts x (List.mem_cons_of_mem t hx)) e hmem

theorem winsOver_mem (p : SessionParser) (xd : GoStr → GoStr) (br : GoStr) :
    ∀ (wid : Nat) (ks : List Nat),
      ∀ e ∈ winsOver p xd br wid ks,
        e.url ≠ [] ∧ wid < e.windowID ∧ e.windowID ≤ wid + ks.length := by
  intro wid ks
  induction ks generalizing wid with
  | nil => intro e he; simp [winsOver] at he
  | cons k ks ih =>
      intro e he
      rw [winsOver] at he
      cases hg : alGet k p.windows with
      | none =>
          rw [hg] at he
          have := ih wid e he
          simp only [List.length_cons]
          exact ⟨this.1, this.2.1, by omega⟩
      | some w =>
          rw [hg] at he
          rcases List.mem_append.mp he with hml | hmr
          · have := emitOver_mem p xd br (p.activeWindow == some k)
              w.activeTabIdx (wid + 1) 0 (w.tabs.filter keepTab)
              (fun t ht => List.of_mem_filter ht) e hml
            simp only [List.length_cons]
            exact ⟨this.1, by omega, by omega⟩
          · have := ih (wid + 1) e hmr
            simp only [List.length_cons]
            exact ⟨this.1, by omega, by omega⟩

/-- Claim C8: the output loop is exactly the spec's filtered pipeline —
deleted windows are removed before sequential ids are assigned (so they
consume no id, and surviving windows get consecutive ids from 1), and
each window emits only its tabs that are not deleted and resolve a
non-empty URL; consequently every emitted entry has a non-empty url and
a windowID between 1 and the number of surviving windows. -/
theorem entries_filtered_and_windows_numbered :
    ∀ (p : SessionParser) (br : GoStr) (xd : GoStr → GoStr)
      (tabOrder winOrder : List Nat),
      buildTabEntries p br xd tabOrder winOrder =
        winsOver (phase2 (phase1 p tabOrder)) xd br 0
          (winOrder.filter (keepWin (phase2 (phase1 p tabOrder)))) ∧
      ∀ e ∈ buildTabEntries p br xd tabOrder winOrder,
        e.url ≠ [] ∧ 1 ≤ e.windowID ∧
        e.windowID ≤
          (winOrder.filter (keepWin (phase2 (phase1 p tabOrder)))).length := by
  intro p br xd tabOrder winOrder
  have heq : buildTabEntries p br xd tabOrder winOrder =
      winsOver (phase2 (phase1 p tabOrder)) xd br 0
        (winOrder.filter (keepWin (phase2 (phase1 p tabOrder)))) := by
    rw [buildTabEntries, phase3_eq_winsOver]
  refine ⟨heq, ?_⟩
  intro e he
  rw [heq] at he
  have := winsOver_mem (phase2 (phase1 p tabOrder)) xd br 0
    (winOrder.filter (keepWin (phase2 (phase1 p tabOrder)))) e he
  exact ⟨this.1, by omega, by omega⟩

/-- A state where every tab's history holds at most one item per index. -/
def HistNodup (p : SessionParser) : Prop :=
  ∀ kt ∈ p.tabs, ((Prod.snd kt).history.map historyItem.idx).Nodup

theorem setFirstMatch_none_iff (i : Nat) (u t : GoStr) :
    ∀ hist : List historyItem,
      setFirstMatch i u t hist = none ↔ ∀ h ∈ hist, h.idx ≠ i := by
  intro hist
  induction hist with
  | nil => simp [setFirstMatch]
  | cons h hs ih =>
      rw [setFirstMatch]
      by_cases hh : h.idx = i
      · simp [hh]
      · rw [if_neg hh, Option.map_eq_none', ih]
        constructor
        · intro hall x hx
          rcases List.mem_cons.mp hx with rfl | hmem
          · exact hh
          · exact hall x hmem
        · intro hall x hx
          exact hall x (List.mem_cons_of_mem h hx)

theorem setFirstMatch_some_map_idx (i : Nat) (u t : GoStr) :
    ∀ (hist hist' : List historyItem),
      setFirstMatch i u t hist = some hist' →
      hist'.map historyItem.idx = hist.map historyItem.idx := by
  intro hist
  induction hist with
  | nil => intro hist' h; simp [setFirstMatch] at h
  | cons h hs ih =>
      intro hist' hm
      rw [setFirstMatch] at hm
      by_cases hh : h.idx = i
      · rw [if_pos hh] at hm
        cases hm
        simp
      · rw [if_neg hh] at hm
        rcases Option.map_eq_some'.mp hm with ⟨l, hl, rfl⟩
        simp [ih l hl]

theorem upsertHist_cons_ne (h : historyItem) (hs : List historyItem)
    (i : Nat) (u t : GoStr) (hh : h.idx ≠ i) :
    upsertHist (h :: hs) i u t = h :: upsertHist hs i u t := by
  rw [upsertHist, upsertHist, setFirstMatch, if_neg hh]
  cases hsm : setFirstMatch i u t hs with
  | none => simp [hsm]
  | some l => simp [hsm]

theorem upsertHist_map_nodup (i : Nat) (u t : GoStr) :
    ∀ hist : List historyItem,
      (hist.map historyItem.idx).Nodup →
      ((upsertHist hist i u t).map historyItem.idx).Nodup := by
  intro hist hnd
  rw [upsertHist]
  cases hsm : setFirstMatch i u t hist with
  | some l => rw [setFirstMatch_some_map_idx i u t hist l hsm]; exact hnd
  | none =>
      have hno := (setFirstMatch_none_iff i u t hist).mp hsm
      rw [List.map_append]
      rw [List.nodup_append]
      refine ⟨hnd, by simp, ?_⟩
      intro x hx hx2
      rcases List.mem_map.mp hx with ⟨h, hh, rfl⟩
      have hred : historyItem.idx ⟨i, u, t⟩ = i := rfl
      simp only [List.map_cons, List.map_nil, List.mem_singleton, hred] at hx2
      exact hno h hh hx2

theorem upsertHist_filter (i : Nat) (u t : GoStr) :
    ∀ hist : List historyItem,
      (hist.map historyItem.idx).Nodup →
      (upsertHist hist i u t).filter (fun h => h.idx == i) =
        [⟨i, u, t⟩] := by
  intro hist
  induction hist with
  | nil =>
      intro _
      simp [upsertHist, setFirstMatch, List.filter]
  | cons h hs ih =>
      intro hnd
      have hnd' : (hs.map historyItem.idx).Nodup := (List.nodup_cons.mp (by simpa using hnd)).2
      have hni : h.idx ∉ hs.map historyItem.idx := (List.nodup_cons.mp (by simpa using hnd)).1
      by_cases hh : h.idx = i
      · rw [upsertHist, setFirstMatch, if_pos hh]
        have hfs : hs.filter (fun x => x.idx == i) = [] := by
          rw [List.filter_eq_nil_iff]
          intro x hx
          simp only [beq_iff_eq]
          intro hcon
          exact hni (by rw [← hh] at hcon; exact hcon ▸ List.mem_map_of_mem historyItem.idx hx)
        rw [List.filter_cons]
        simp only [hh, beq_self_eq_true, ite_true, hfs]
      · rw [upsertHist_cons_ne h hs i u t hh, List.filter_cons]
        have : (h.idx == i) = false := by simp [hh]
        rw [this]
        simp only [Bool.false_eq_true, ite_false]
        exact ih hnd'

theorem mem_alSet {κ α : Type} [DecidableEq κ] (k : κ) (f : α → α) (d : α) :
    ∀ (m : List (κ × α)) (x : κ × α), x ∈ alSet k f d m →
      x ∈ m ∨ ∃ v, x = (k, f v) ∧ (v = d ∨ (k, v) ∈ m) := by
  intro m
  induction m with
  | nil =>
      intro x hx
      simp only [alSet, List.mem_singleton] at hx
      exact Or.inr ⟨d, hx, Or.inl rfl⟩
  | cons kv m ih =>
      intro x hx
      obtain ⟨k', v'⟩ := kv
      by_cases hk : k' = k
      · subst hk
        rw [alSet, if_pos rfl] at hx
        rcases List.mem_cons.mp hx with rfl | hmem
        · exact Or.inr ⟨v', rfl, Or.inr (List.mem_cons_self _ _)⟩
        · exact Or.inl (List.mem_cons_of_mem _ hmem)
      · rw [alSet, if_neg hk] at hx
        rcases List.mem_cons.mp hx with rfl | hmem
        · exact Or.inl (List.mem_cons_self _ _)
        · rcases ih x hmem with hold | ⟨v, rfl, hv⟩
          · exact Or.inl (List.mem_cons_of_mem _ hold)
          · refine Or.inr ⟨v, rfl, ?_⟩
            rcases hv with rfl | hmem2
            · exact Or.inl rfl
            · exact Or.inr (List.mem_cons_of_mem _ hmem2)

theorem HistNodup_updTab {p : SessionParser} {id : Nat}
    {f : sessionTab → sessionTab} (hp : HistNodup p)
    (hf : ∀ t : sessionTab, (t.history.map historyItem.idx).Nodup →
      ((f t).history.map historyItem.idx).Nodup) :
    HistNodup (updTab p id f) := by
  intro kt hkt
  rcases mem_alSet id f (zeroTab id) p.tabs kt hkt with hold | ⟨v, rfl, hv⟩
  · exact hp kt hold
  · dsimp only
    apply hf
    rcases hv with rfl | hmem
    · simp [zeroTab]
    · exact hp (id, v) hmem

theorem HistNodup_of_tabs_eq {p p' : SessionParser} (h : p'.tabs = p.tabs)
    (hp : HistNodup p) : HistNodup p' := by
  intro kt hkt
  exact hp kt (h ▸ hkt)

theorem processCommand_histNodup :
    ∀ (p : SessionParser) (typ : Nat) (data : List Nat) (p' : SessionParser),
      processCommand p typ data = some p' → HistNodup p → HistNodup p' := by
  intro p typ data p' hpc hp
  rw [processCommand] at hpc
  by_cases h6 : typ = kCommandUpdateTabNavigation
  · rw [if_pos h6] at hpc
    rcases hr1 : readUint32 data with ⟨r1, d1⟩
    rw [hr1] at hpc; dsimp only at hpc
    rcases hr2 : readUint32 d1 with ⟨r2, d2⟩
    rw [hr2] at hpc; dsimp only at hpc
    rcases hr3 : readUint32 d2 with ⟨r3, d3⟩
    rw [hr3] at hpc; dsimp only at hpc
    cases hs1 : readString d3 with
    | none => rw [hs1] at hpc; exact absurd hpc (by simp)
    | some v =>
        rw [hs1] at hpc
        obtain ⟨r4, d4⟩ := v
        dsimp only at hpc
        cases hs2 : readString16 d4 with
        | none => rw [hs2] at hpc; exact absurd hpc (by simp)
        | some v2 =>
            rw [hs2] at hpc
            obtain ⟨r5, d5⟩ := v2
            dsimp only at hpc
            cases hpc
            exact HistNodup_updTab hp (fun t hnd => upsertHist_map_nodup _ _ _ _ hnd)
  rw [if_neg h6] at hpc
  by_cases h8 : typ = kCommandSetSelectedTabInIndex
  · rw [if_pos h8] at hpc
    rcases hr1 : readUint32 data with ⟨r1, d1⟩
    rw [hr1] at hpc; dsimp only at hpc
    rcases hr2 : readUint32 d1 with ⟨r2, d2⟩
    rw [hr2] at hpc; dsimp only at hpc
    cases hpc
    exact HistNodup_of_tabs_eq rfl hp
  rw [if_neg h8] at hpc
  by_cases h27 : typ = kCommandSetTabGroupMetadata2
  · rw [if_pos h27] at hpc
    rcases hr1 : readUint32 data with ⟨r1, d1⟩
    rw [hr1] at hpc; dsimp only at hpc
    rcases hr2 : readUint64 d1 with ⟨r2, d2⟩
    rw [hr2] at hpc; dsimp only at hpc
    rcases hr3 : readUint64 d2 with ⟨r3, d3⟩
    rw [hr3] at hpc; dsimp only at hpc
    cases hs1 : readString16 d3 with
    | none => rw [hs1] at hpc; exact absurd hpc (by simp)
    | some v =>
        rw [hs1] at hpc
        obtain ⟨r4, d4⟩ := v
        dsimp only at hpc
        cases hpc
        exact HistNodup_of_tabs_eq rfl hp
  rw [if_neg h27] at hpc
  by_cases h25 : typ = kCommandSetTabGroup
  · rw [if_pos h25] at hpc
    rcases hr1 : readUint32 data with ⟨r1, d1⟩
    rw [hr1] at hpc; dsimp only at hpc
    rcases hr2 : readUint32 d1 with ⟨r2, d2⟩
    rw [hr2] at hpc; dsimp only at hpc
    rcases hr3 : readUint64 d2 with ⟨r3, d3⟩
    rw [hr3] at hpc; dsimp only at hpc
    rcases hr4 : readUint64 d3 with ⟨r4, d4⟩
    rw [hr4] at hpc; dsimp only at hpc
    cases hpc
    exact HistNodup_updTab (HistNodup_of_tabs_eq rfl hp) (fun t h => h)
  rw [if_neg h25] at hpc
  by_cases h0 : typ = kCommandSetTabWindow
  · rw [if_pos h0] at hpc
    rcases hr1 : readUint32 data with ⟨r1, d1⟩
    rw [hr1] at hpc; dsimp only at hpc
    rcases hr2 : readUint32 d1 with ⟨r2, d2⟩
    rw [hr2] at hpc; dsimp only at hpc
    cases hpc
    exact HistNodup_updTab hp (fun t h => h)
  rw [if_neg h0] at hpc
  by_cases h17 : typ = kCommandWindowClosed
  · rw [if_pos h17] at hpc
    rcases hr1 : readUint32 data with ⟨r1, d1⟩
    rw [hr1] at hpc; dsimp only at hpc
    cases hpc
    exact HistNodup_of_tabs_eq rfl hp
  rw [if_neg h17] at hpc
  by_cases h16 : typ = kCommandTabClosed
  · rw [if_pos h16] at hpc
    rcases hr1 : readUint32 data with ⟨r1, d1⟩
    rw [hr1] at hpc; dsimp only at hpc
    cases hpc
    exact HistNodup_updTab hp (fun t h => h)
  rw [if_neg h16] at hpc
  by_cases h2 : typ = kCommandSetTabIndexInWindow
  · rw [if_pos h2] at hpc
    rcases hr1 : readUint32 data with ⟨r1, d1⟩
    rw [hr1] at hpc; dsimp only at hpc
    rcases hr2 : readUint32 d1 with ⟨r2, d2⟩
    rw [hr2] at hpc; dsimp only at hpc
    cases hpc
    exact HistNodup_updTab hp (fun t h => h)
  rw [if_neg h2] at hpc
  by_cases h20 : typ = kCommandSetActiveWindow
  · rw [if_pos h20] at hpc
    rcases hr1 : readUint32 data with ⟨r1, d1⟩
    rw [hr1] at hpc; dsimp only at hpc
    cases hpc
    exact HistNodup_of_tabs_eq rfl hp
  rw [if_neg h20] at hpc
  by_cases h7 : typ = kCommandSetSelectedNavigationIndex
  · rw [if_pos h7] at hpc
    rcases hr1 : readUint32 data with ⟨r1, d1⟩
    rw [hr1] at hpc; dsimp only at hpc
    rcases hr2 : readUint32 d1 with ⟨r2, d2⟩
    rw [hr2] at hpc; dsimp only at hpc
    cases hpc
    exact HistNodup_updTab hp (fun t h => h)
  rw [if_neg h7] at hpc
  cases hpc
  exact hp

theorem processCommand_nav_enc (p : SessionParser) (tid hidx : Nat)
    (url : GoStr) (units : List Nat)
    (hurl : pad4 url.length < 2 ^ 32)
    (hun : pad4 (2 * units.length) < 2 ^ 32) (hu : ∀ u ∈ units, u < 2 ^ 16)
    (htid : tid < 2 ^ 32) (hhidx : hidx < 2 ^ 32) :
    processCommand p kCommandUpdateTabNavigation
        (encNavPayload tid hidx url units) =
      some (updTab p tid (fun t =>
        { t with history := upsertHist t.history hidx url (goStr16 units) })) := by
  rw [processCommand, if_pos rfl]
  rw [show encNavPayload tid hidx url units =
    encU32 0 ++ (encU32 tid ++ (encU32 hidx ++ (encStr url ++ encStr16 units))) from by
      simp [encNavPayload, List.append_assoc]]
  rw [readUint32_enc 0 _ (by norm_num)]
  dsimp only
  rw [readUint32_enc tid _ htid]
  dsimp only
  rw [readUint32_enc hidx _ hhidx]
  dsimp only
  rw [encStr_decode url _ hurl]
  dsimp only
  rw [show encStr16 units = encStr16 units ++ [] from (List.append_nil _).symm,
    encStr16_decode units [] hun hu]
  dsimp only
  simp [valD, valS, Except.toOption]

theorem alGet_mem {κ α : Type} [DecidableEq κ] {k : κ} {v : α} :
    ∀ {m : List (κ × α)}, alGet k m = some v → (k, v) ∈ m := by
  intro m
  induction m with
  | nil => intro h; simp [alGet] at h
  | cons kv m ih =>
      intro h
      obtain ⟨k', v'⟩ := kv
      rw [alGet] at h
      by_cases hk : k' = k
      · rw [if_pos hk] at h
        cases h
        subst hk
        exact List.mem_cons_self _ _
      · rw [if_neg hk] at h
        exact List.mem_cons_of_mem _ (ih h)

/-- Claim C9: a tab's history never holds two items with the same index
— every command preserves the at-most-one-item-per-index invariant — and
two `UpdateTabNavigation` commands for the same tab and history index
leave exactly one item at that index, carrying the second command's url
and title. -/
theorem history_upsert_unique_index :
    (∀ (p : SessionParser) (typ : Nat) (data : List Nat) (p' : SessionParser),
      processCommand p typ data = some p' → HistNodup p → HistNodup p') ∧
    (∀ (p : SessionParser) (tid hidx : Nat) (url1 url2 : GoStr)
       (t1 t2 : List Nat),
      HistNodup p →
      pad4 url1.length < 2 ^ 32 → pad4 url2.length < 2 ^ 32 →
      pad4 (2 * t1.length) < 2 ^ 32 → (∀ u ∈ t1, u < 2 ^ 16) →
      pad4 (2 * t2.length) < 2 ^ 32 → (∀ u ∈ t2, u < 2 ^ 16) →
      tid < 2 ^ 32 → hidx < 2 ^ 32 →
      ∃ p1 p2,
        processCommand p kCommandUpdateTabNavigation
            (encNavPayload tid hidx url1 t1) = some p1 ∧
        processCommand p1 kCommandUpdateTabNavigation
            (encNavPayload tid hidx url2 t2) = some p2 ∧
        (∃ t, alGet tid p2.tabs = some t ∧
          t.history.filter (fun h => h.idx == hidx) =
            [⟨hidx, url2, goStr16 t2⟩]) ∧
        HistNodup p2) := by
  refine ⟨processCommand_histNodup, ?_⟩
  intro p tid hidx url1 url2 t1 t2 hp hu1 hu2 hl1 hb1 hl2 hb2 htid hhidx
  have e1 := processCommand_nav_enc p tid hidx url1 t1 hu1 hl1 hb1 htid hhidx
  have e2 := processCommand_nav_enc
    (updTab p tid (fun t =>
      { t with history := upsertHist t.history hidx url1 (goStr16 t1) }))
    tid hidx url2 t2 hu2 hl2 hb2 htid hhidx
  refine ⟨_, _, e1, e2, ?_,
    processCommand_histNodup _ _ _ _ e2
      (processCommand_histNodup _ _ _ _ e1 hp)⟩
  have hv0 : (((alGet tid p.tabs).getD (zeroTab tid)).history.map
      historyItem.idx).Nodup := by
    cases halG : alGet tid p.tabs with
    | none => simp [zeroTab]
    | some v => simpa using hp (tid, v) (alGet_mem halG)
  have hget : alGet tid ((updTab (updTab p tid (fun t =>
      { t with history := upsertHist t.history hidx url1 (goStr16 t1) })) tid
        (fun t =>
          { t with history := upsertHist t.history hidx url2 (goStr16 t2) })).tabs) =
      some { (((alGet tid p.tabs).getD (zeroTab tid)) : sessionTab) with
        history := upsertHist (upsertHist
          ((alGet tid p.tabs).getD (zeroTab tid)).history hidx url1 (goStr16 t1))
          hidx url2 (goStr16 t2) } := by
    show alGet tid (alSet tid _ (zeroTab tid) (alSet tid _ (zeroTab tid) p.tabs)) = _
    rw [alGet_alSet_self, alGet_alSet_self, Option.getD_some]
  refine ⟨_, hget, ?_⟩
  dsimp only
  exact upsertHist_filter hidx url2 (goStr16 t2) _
    (upsertHist_map_nodup hidx url1 (goStr16 t1) _ hv0)

theorem history_upsert_unique_index_witness :
    ∃ p1 p2,
      processCommand newSessionParser kCommandUpdateTabNavigation
          (encNavPayload 1 0 [97] [65]) = some p1 ∧
      processCommand p1 kCommandUpdateTabNavigation
          (encNavPayload 1 0 [98] [66]) = some p2 ∧
      (∃ t, alGet 1 p2.tabs = some t ∧
        t.history.filter (fun h => h.idx == 0) = [⟨0, [98], goStr16 [66]⟩]) ∧
      HistNodup p2 :=
  history_upsert_unique_index.2 newSessionParser 1 0 [97] [98] [65] [66]
    (fun kt hkt => by simp [newSessionParser] at hkt)
    (by decide) (by decide) (by decide) (by decide) (by decide) (by decide)
    (by decide) (by decide)

theorem readFull_eof {n : Nat} {s r : List Nat} {b : Except ReadErr (List Nat)}
    (h : readFull n s = (b, r)) (hb : b = Except.error ReadErr.eof) : s = [] := by
  subst hb
  unfold readFull at h
  split_ifs at h with h1 h2
  · simp at h
  · exact List.length_eq_zero.mp h2
  · simp at h

theorem readUint16_eof {s r : List Nat}
    (h : readUint16 s = (Except.error ReadErr.eof, r)) : s = [] := by
  unfold readUint16 at h
  cases hrf : readFull 2 s with
  | mk a b =>
      rw [hrf] at h
      cases a with
      | ok v => simp at h
      | error e =>
          dsimp only at h
          have he : e = ReadErr.eof := by
            have := congrArg Prod.fst h
            simpa using this
          exact readFull_eof hrf (by rw [he])

/-- Modelled from the spec (section 4.2): the record loop's run reaches
end-of-stream exactly at the start of a 2-byte size read — the stream
splits into complete records, each processed without a panic, with the
empty stream left at the end. -/
inductive LoopEndsAtSizeRead : SessionParser → List Nat → Prop where
  | done (p : SessionParser) : LoopEndsAtSizeRead p []
  | step {p : SessionParser} {s s1 s2 s3 buf : List Nat} {sz typ : Nat}
      {p' : SessionParser} :
      readUint16 s = (Except.ok sz, s1) →
      readUint8 s1 = (Except.ok typ, s2) →
      sz ≠ 0 →
      readFull (sz - 1) s2 = (Except.ok buf, s3) →
      processCommand p typ buf = some p' →
      LoopEndsAtSizeRead p' s3 →
      LoopEndsAtSizeRead p s

theorem runLoop_ok_to_ends :
    ∀ (n : Nat) (p : SessionParser) (s : List Nat), s.length ≤ n →
      ∀ q, runLoop p s = some (Except.ok q) → LoopEndsAtSizeRead p s := by
  intro n
  induction n with
  | zero =>
      intro p s hs q hq
      have hs0 : s = [] := List.length_eq_zero.mp (Nat.le_zero.mp hs)
      subst hs0
      exact LoopEndsAtSizeRead.done p
  | succ n ih =>
      intro p s hs q hq
      rw [runLoop.eq_def] at hq
      cases h1 : readUint16 s with
      | mk r1 s1 =>
          rw [h1] at hq
          cases r1 with
          | error e =>
              cases e with
              | eof =>
                  have := readUint16_eof h1
                  subst this
                  exact LoopEndsAtSizeRead.done p
              | unexpectedEOF => simp at hq
          | ok sz =>
              dsimp only at hq
              cases h2 : readUint8 s1 with
              | mk r2 s2 =>
                  rw [h2] at hq
                  cases r2 with
                  | error e => simp at hq
                  | ok typ =>
                      dsimp only at hq
                      by_cases hsz : sz = 0
                      · rw [if_pos hsz] at hq
                        simp at hq
                      · rw [if_neg hsz] at hq
                        cases h3 : readFull (sz - 1) s2 with
                        | mk r3 s3 =>
                            rw [h3] at hq
                            cases r3 with
                            | error e => simp at hq
                            | ok buf =>
                                dsimp only at hq
                                cases hp : processCommand p typ buf with
                                | none => rw [hp] at hq; simp at hq
                                | some p' =>
                                    rw [hp] at hq
                                    dsimp only at hq
                                    refine LoopEndsAtSizeRead.step h1 h2 hsz h3 hp
                                      (ih p' s3 ?_ q hq)
                                    obtain ⟨l1, e1⟩ := readUint16_ok h1
                                    obtain ⟨l2, e2⟩ := readUint8_ok h2
                                    obtain ⟨l3, _, e3⟩ := readFull_ok_eq h3
                                    subst e1 e2 e3
                                    simp only [List.length_drop]
                                    omega

theorem ends_to_runLoop_ok :
    ∀ {p : SessionParser} {s : List Nat}, LoopEndsAtSizeRead p s →
      ∃ q, runLoop p s = some (Except.ok q) := by
  intro p s h
  induction h with
  | done p => exact ⟨p, by rw [runLoop.eq_def]; rfl⟩
  | step h1 h2 hsz h3 hp _ ih =>
      obtain ⟨q, hq⟩ := ih
      refine ⟨q, ?_⟩
      rw [runLoop.eq_def, h1]
      dsimp only
      rw [h2]
      dsimp only
      rw [if_neg hsz, h3]
      dsimp only
      rw [hp]
      exact hq

theorem parse_after_header (v : Nat) (s : List Nat) (br : GoStr)
    (xd : GoStr → GoStr) (tabOrder winOrder : List Nat) (hv : v = 1 ∨ v = 3) :
    parseSessionFile (encHeader v ++ s) br xd tabOrder winOrder =
      (match runLoop newSessionParser s with
        | none => POutcome.panicked
        | some (Except.error e) => POutcome.err e
        | some (Except.ok p) =>
            POutcome.ok (buildTabEntries p br xd tabOrder winOrder)) := by
  have hv32 : v < 2 ^ 32 := by rcases hv with rfl | rfl <;> norm_num
  have happ : encHeader v ++ s = [83, 78, 83, 83] ++ (encU32 v ++ s) := by
    simp [encHeader, List.append_assoc]
  have h4 : readFull 4 ([83, 78, 83, 83] ++ (encU32 v ++ s)) =
      (Except.ok [83, 78, 83, 83], encU32 v ++ s) := by
    rw [readFull, if_pos (by simp)]
    rw [List.take_left' (show ([83, 78, 83, 83] : List Nat).length = 4 from rfl),
      List.drop_left' (show ([83, 78, 83, 83] : List Nat).length = 4 from rfl)]
  rw [parseSessionFile, happ, h4]
  dsimp only
  rw [if_neg (by decide)]
  rw [readUint32_enc v s hv32]
  dsimp only
  rw [if_neg (by rcases hv with rfl | rfl <;> simp)]

/-- Claim C5: the record loop terminates normally — producing a state
whose assembled entries the parse returns — exactly when its run reaches
end-of-stream at the start of a 2-byte size read; a 1-byte stream at a
size read, a stream ending before the type byte, and a payload shorter
than `sz - 1` each fail the parse with the corresponding truncation
error, and a header-valid input parses to entries exactly when the
post-header stream ends cleanly at a size-read boundary. -/
theorem loop_ok_iff_ends_at_size_read :
    ∀ (p : SessionParser) (s : List Nat),
      ((∃ q, runLoop p s = some (Except.ok q)) ↔ LoopEndsAtSizeRead p s) ∧
      (∀ b : Nat, runLoop p [b] = some (Except.error ParseErr.cmdSize)) ∧
      (∀ b0 b1 : Nat, runLoop p [b0, b1] = some (Except.error ParseErr.cmdType)) ∧
      (∀ (b0 b1 t : Nat) (rest : List Nat),
        (b0 ||| b1 <<< 8) ≠ 0 → rest.length < (b0 ||| b1 <<< 8) - 1 →
        runLoop p (b0 :: b1 :: t :: rest) =
          some (Except.error ParseErr.cmdPayload)) ∧
      (∀ (v : Nat) (br : GoStr) (xd : GoStr → GoStr) (tabOrder winOrder : List Nat),
        v = 1 ∨ v = 3 →
        ((∃ es, parseSessionFile (encHeader v ++ s) br xd tabOrder winOrder =
            POutcome.ok es) ↔ LoopEndsAtSizeRead newSessionParser s)) := by
  intro p s
  refine ⟨⟨fun ⟨q, hq⟩ => runLoop_ok_to_ends s.length p s (Nat.le_refl _) q hq,
    ends_to_runLoop_ok⟩, ?_, ?_, ?_, ?_⟩
  · intro b
    have h16 : readUint16 [b] = (Except.error ReadErr.unexpectedEOF, []) := rfl
    rw [runLoop.eq_def, h16]
  · intro b0 b1
    have h16 : readUint16 [b0, b1] = (Except.ok (b0 ||| b1 <<< 8), []) := rfl
    rw [runLoop.eq_def, h16]
    dsimp only
    rfl
  · intro b0 b1 t rest hsz hlen
    have h16 : readUint16 (b0 :: b1 :: t :: rest) =
        (Except.ok (b0 ||| b1 <<< 8), t :: rest) := rfl
    have h8 : readUint8 (t :: rest) = (Except.ok t, rest) := by
      simp [readUint8, readFull]
    rw [runLoop.eq_def, h16]
    dsimp only
    rw [h8]
    dsimp only
    rw [if_neg hsz]
    by_cases h0 : rest.length = 0
    · have hrf : readFull ((b0 ||| b1 <<< 8) - 1) rest =
          (Except.error ReadErr.eof, []) := by
        rw [readFull, if_neg (by omega), if_pos h0]
      rw [hrf]
    · have hrf : readFull ((b0 ||| b1 <<< 8) - 1) rest =
          (Except.error ReadErr.unexpectedEOF, []) := by
        rw [readFull, if_neg (by omega), if_neg h0]
      rw [hrf]
  · intro v br xd tabOrder winOrder hv
    rw [parse_after_header v s br xd tabOrder winOrder hv]
    constructor
    · rintro ⟨es, hes⟩
      cases hrl : runLoop newSessionParser s with
      | none => rw [hrl] at hes; simp at hes
      | some r =>
          cases r with
          | error e => rw [hrl] at hes; simp at hes
          | ok q =>
              exact runLoop_ok_to_ends s.length newSessionParser s
                (Nat.le_refl _) q hrl
    · intro hends
      obtain ⟨q, hq⟩ := ends_to_runLoop_ok hends
      rw [hq]
      exact ⟨_, rfl⟩

theorem loop_ok_iff_ends_at_size_read_witness :
    (∃ q, runLoop newSessionParser [] = some (Except.ok q)) ∧
    runLoop newSessionParser [7] = some (Except.error ParseErr.cmdSize) ∧
    runLoop newSessionParser [5, 0, 9] = some (Except.error ParseErr.cmdPayload) ∧
    (∃ es, parseSessionFile (encHeader 1 ++ []) [] sameDomain [] [] =
      POutcome.ok es) := by
  refine ⟨(loop_ok_iff_ends_at_size_read newSessionParser []).1.mpr
      (LoopEndsAtSizeRead.done newSessionParser),
    (loop_ok_iff_ends_at_size_read newSessionParser []).2.1 7,
    ?_, ?_⟩
  · exact (loop_ok_iff_ends_at_size_read newSessionParser []).2.2.2.1 5 0 9 []
      (by decide) (by decide)
  · exact ((loop_ok_iff_ends_at_size_read newSessionParser []).2.2.2.2 1 []
      sameDomain [] [] (Or.inl rfl)).mpr (LoopEndsAtSizeRead.done newSessionParser)

end SNSS
